import Mathlib

/-!
Shallow embedding of two modules of the indigo repository:

* `Modules/hmap/module/src/hmap.c` — an open-addressed Robin-Hood hashed
  multimap with tombstones, and
* `Modules/Indigo/OFStateManager/module/src/ft.c` — the flow table layered
  over three hash indexes, a free list and an all-entries list.

C machine integers are modelled as `Nat` (bit operations written with the
same masks as the C source).  Loops are modelled by structural recursion on
an explicit fuel argument large enough to cover every terminating C
execution; returning `none` models the C `assert(0)` / nontermination
paths.  Fallible operations return `Option` / a result code.
-/

/-- Read index `i` of list `l`, with default `d` out of bounds.  Models a C
array read; all array reads of the embedded code are in bounds in the
states the theorems speak about. -/
def lget (l : List α) (i : Nat) (d : α) : α := (l[i]?).getD d

/-! ## hmap: data model

`hmap_int.h` is not among the staged sources; the spec fixes its constants:
`FREE` is the reserved sentinel `0` and the tombstone is the high bit
`0x80000000` of the 32-bit hash cell. -/

/-- Sentinel stored hash of a never-used bucket (`HMAP_HASH_FREE`, spec §3). -/
def HMAP_HASH_FREE : Nat := 0

/-- Tombstone flag stored in bit 31 of the hash cell
(`HMAP_HASH_DELETED_BIT`, spec §3). -/
def HMAP_HASH_DELETED_BIT : Nat := 0x80000000

/-- Initial bucket-array size (`HMAP_INITIAL_SIZE` in hmap.c). -/
def HMAP_INITIAL_SIZE : Nat := 8

/-- A hashed object as in the hmap unit test (`struct obj`): an object
identity plus the embedded key that `key_offset` points at.  All in-repo
key types are integers compared by integer equality, so keys are `Nat`. -/
structure HObj where
  oid : Nat
  key : Nat
deriving DecidableEq, Repr

instance : Inhabited HObj := ⟨⟨0, 0⟩⟩

/-- `struct hmap`.  The user hash function acts on the key view.  The float
`max_load_factor` is carried as the exact fraction `lfNum / lfDen` (the
default 0.8 is 4/5); `threshold = size * max_load_factor` truncated to an
integer, as in the C code. -/
structure Hmap where
  hashFn : Nat → Nat
  lfNum : Nat
  lfDen : Nat
  count : Nat
  size : Nat
  threshold : Nat
  hashes : List Nat
  objects : List HObj

/-- `hmap_create`.  A zero `max_load_factor` selects the default 0.8; the
bucket array starts at size 8 with `calloc`ed (all-`FREE`) hash cells.
Models the successful creation (allocation failure is fatal in C). -/
def hmap_create (hashFn : Nat → Nat) (lfNum lfDen : Nat) : Hmap :=
  let n := if lfNum = 0 then 4 else lfNum
  let d := if lfNum = 0 then 5 else lfDen
  { hashFn := hashFn, lfNum := n, lfDen := d, count := 0,
    size := HMAP_INITIAL_SIZE,
    threshold := HMAP_INITIAL_SIZE * n / d,
    hashes := List.replicate HMAP_INITIAL_SIZE HMAP_HASH_FREE,
    objects := List.replicate HMAP_INITIAL_SIZE default }

/-- `hmap_count`. -/
def hmap_count (t : Hmap) : Nat := t.count

/-- `hmap_index`: `(hash + distance) & (size - 1)`. -/
def hmap_index (t : Hmap) (hash distance : Nat) : Nat :=
  (hash + distance) &&& (t.size - 1)

/-- `hmap_distance`: how far the hash value stored at `idx` is from its
desired bucket, `(idx + size - start_idx) & (size - 1)`. -/
def hmap_distance (t : Hmap) (idx hash : Nat) : Nat :=
  (idx + t.size - hmap_index t hash 0) &&& (t.size - 1)

/-- `hmap_calc_hash`: call the user hash function and munge the result so it
collides with neither special hash code: clear the tombstone bit
(`hash &= ~HMAP_HASH_DELETED_BIT`, on `uint32` a mask with `0x7FFFFFFF`),
then `hash |= hash == HMAP_HASH_FREE`. -/
def hmap_calc_hash (t : Hmap) (key : Nat) : Nat :=
  let hash := t.hashFn key &&& 0x7FFFFFFF
  hash ||| (if hash = HMAP_HASH_FREE then 1 else 0)

/-- Outcome of one iteration of the scan loop of `hmap_lookup` at a given
probe distance: return the object, break out of the loop ("not found"), or
advance to the next probe distance. -/
inductive HLookupStep where
  | found (object : HObj)
  | brk
  | advance
deriving DecidableEq, Repr

/-- One iteration of the scan loop in `hmap_lookup`: on a stored-hash match
test key equality; otherwise break when the cell is `FREE` or when the
occupant's probe distance (computed from the full stored cell, tombstone
bit included) is smaller than the current distance; otherwise advance. -/
def hmap_lookup_step (t : Hmap) (key hash distance : Nat) : HLookupStep :=
  let idx := hmap_index t hash distance
  let bucket_hash := lget t.hashes idx 0
  if bucket_hash = hash then
    if key = (lget t.objects idx default).key then .found (lget t.objects idx default)
    else .advance
  else if bucket_hash = HMAP_HASH_FREE ∨ hmap_distance t idx bucket_hash < distance then .brk
  else .advance

/-- The scan loop of `hmap_lookup` (`for (; distance < hmap->size;
distance++)`).  The fuel counts the remaining loop iterations; a found
object is returned together with the updated cursor `distance + 1`. -/
def hmap_lookup_go (t : Hmap) (key hash : Nat) : Nat → Nat → Option (HObj × Nat)
  | 0, _ => none
  | fuel + 1, distance =>
    if distance < t.size then
      match hmap_lookup_step t key hash distance with
      | .found object => some (object, distance + 1)
      | .brk => none
      | .advance => hmap_lookup_go t key hash fuel (distance + 1)
    else none

/-- `hmap_lookup` with a non-null `state` argument: `state` is the starting
probe distance, and a hit returns the object together with the written-back
cursor `distance + 1`.  `none` models the C NULL return.  The C call with a
NULL state pointer behaves as `hmap_lookup t key 0` with the returned
cursor discarded. -/
def hmap_lookup (t : Hmap) (key state : Nat) : Option (HObj × Nat) :=
  hmap_lookup_go t key (hmap_calc_hash t key) (t.size - state) state

/-- Fuel big enough for every terminating run of the `hmap_insert__` loop:
every non-placing iteration strictly decreases
`(size - distance) + Σ over buckets of (size - stored distance)`,
which is at most `size + size * size`. -/
def hmap_insert_fuel (t : Hmap) : Nat := t.size * t.size + t.size + 1

/-- The placement loop of `hmap_insert__` (helper of `hmap_insert` and
`hmap_grow`; inserts using the given hash code without growing).  Place on
a `FREE` cell, or on a tombstone being stolen (`distance > bucket_distance`);
otherwise on `should_steal` swap with the occupant and continue placing the
displaced pair from `bucket_distance + 1`; otherwise advance.  `none`
models the `assert(0)` after the loop / a non-terminating run. -/
def hmap_insert_go : Nat → Hmap → HObj → Nat → Nat → Option Hmap
  | 0, _, _, _, _ => none
  | fuel + 1, t, object, hash, distance =>
    if distance < t.size then
      let idx := hmap_index t hash distance
      let bucket_hash := lget t.hashes idx 0
      let bucket_distance := hmap_distance t idx bucket_hash
      let should_steal := bucket_distance < distance
      if bucket_hash = HMAP_HASH_FREE ∨
          (bucket_hash &&& HMAP_HASH_DELETED_BIT ≠ 0 ∧ should_steal) then
        some { t with hashes := t.hashes.set idx hash,
                      objects := t.objects.set idx object,
                      count := t.count + 1 }
      else if should_steal then
        let bucket_object := lget t.objects idx default
        hmap_insert_go fuel
          { t with hashes := t.hashes.set idx hash,
                   objects := t.objects.set idx object }
          bucket_object bucket_hash (bucket_distance + 1)
      else hmap_insert_go fuel t object hash (distance + 1)
    else none

/-- The loop body of `hmap_grow`: re-insert one old bucket (a stored hash
paired with its object) into the new arrays using the stored hash, skipping
free cells and tombstones. -/
def hmap_grow_step (acc : Hmap) (hv : Nat × HObj) : Option Hmap :=
  if hv.1 ≠ HMAP_HASH_FREE ∧ hv.1 &&& HMAP_HASH_DELETED_BIT = 0 then
    hmap_insert_go (hmap_insert_fuel acc) acc hv.2 hv.1 0
  else some acc

/-- The state of `hmap_grow` after allocating the doubled arrays and before
the re-insertion loop: `count` reset, `size` doubled, `threshold`
recomputed, `calloc`ed hash cells. -/
def hmap_grow_init (t : Hmap) : Hmap :=
  { t with count := 0, size := t.size * 2,
           threshold := t.size * 2 * t.lfNum / t.lfDen,
           hashes := List.replicate (t.size * 2) HMAP_HASH_FREE,
           objects := List.replicate (t.size * 2) default }

/-- `hmap_grow`: double the table size, reset `count`, recompute the
threshold, and re-insert every non-free non-tombstone bucket of the old
arrays with its stored hash (no rehash, no further growth). -/
def hmap_grow (t : Hmap) : Option Hmap :=
  (t.hashes.zip t.objects).foldlM hmap_grow_step (hmap_grow_init t)

/-- `hmap_insert`: grow when `count >= threshold`, then run the placement
loop with the sanitized hash of the object's key. -/
def hmap_insert (t : Hmap) (object : HObj) : Option Hmap :=
  (if t.threshold ≤ t.count then hmap_grow t else some t).bind fun t1 =>
    hmap_insert_go (hmap_insert_fuel t1) t1 object (hmap_calc_hash t1 object.key) 0

/-- The scan loop of `hmap_remove`: find the cell whose stored hash equals
the sanitized hash and whose object is the argument, OR the tombstone bit
into it and decrement `count`.  `none` models the `assert(0)` (object not
present). -/
def hmap_remove_go : Nat → Hmap → HObj → Nat → Nat → Option Hmap
  | 0, _, _, _, _ => none
  | fuel + 1, t, object, hash, distance =>
    if distance < t.size then
      let idx := hmap_index t hash distance
      let bucket_hash := lget t.hashes idx 0
      if bucket_hash = hash ∧ lget t.objects idx default = object then
        some { t with hashes := t.hashes.set idx (hash ||| HMAP_HASH_DELETED_BIT),
                      count := t.count - 1 }
      else hmap_remove_go fuel t object hash (distance + 1)
    else none

/-- `hmap_remove`. -/
def hmap_remove (t : Hmap) (object : HObj) : Option Hmap :=
  hmap_remove_go t.size t object (hmap_calc_hash t object.key) 0

/-- Whether a stored hash cell is occupied (non-free, non-tombstone) — the
test `(hash != HMAP_HASH_FREE) && !(hash & HMAP_HASH_DELETED_BIT)` used by
`hmap_grow` and `hmap_stats`. -/
def hmap_live (h : Nat) : Bool :=
  decide (h ≠ HMAP_HASH_FREE ∧ h &&& HMAP_HASH_DELETED_BIT = 0)

/-- The number of occupied (non-free, non-tombstone) buckets; the hmap
invariant says `count` equals this. -/
def hmap_live_count (t : Hmap) : Nat := t.hashes.countP hmap_live

/-- The hmap state invariant: consistent array lengths, a non-empty bucket
array, `count` equal to the number of occupied buckets and below `size`,
and the threshold as computed from a below-one load factor. -/
def HmapInv (t : Hmap) : Prop :=
  t.hashes.length = t.size ∧ t.objects.length = t.size ∧ 0 < t.size ∧
  t.count = hmap_live_count t ∧ t.count < t.size ∧
  t.threshold = t.size * t.lfNum / t.lfDen ∧ t.lfNum < t.lfDen

/-- A `max_load_factor` argument the hmap interface allows: 0 (select the
default) or a fraction strictly between 0 and 1. -/
def goodLF (lfNum lfDen : Nat) : Prop := lfNum = 0 ∨ (0 < lfNum ∧ lfNum < lfDen)

/-- Hmap states reachable from `hmap_create` by (successful) inserts and
removes, at a fixed hash function and load factor. -/
inductive HmapReachable (hashFn : Nat → Nat) (lfNum lfDen : Nat) : Hmap → Prop where
  | create : HmapReachable hashFn lfNum lfDen (hmap_create hashFn lfNum lfDen)
  | insert {t t' : Hmap} (object : HObj) : HmapReachable hashFn lfNum lfDen t →
      hmap_insert t object = some t' → HmapReachable hashFn lfNum lfDen t'
  | remove {t t' : Hmap} (object : HObj) : HmapReachable hashFn lfNum lfDen t →
      hmap_remove t object = some t' → HmapReachable hashFn lfNum lfDen t'

/-- Collect the results of up to `n` successive `hmap_lookup` calls with a
threaded state cursor, stopping at the first NULL return. -/
def lookupStream (t : Hmap) (key : Nat) : Nat → Nat → List HObj
  | 0, _ => []
  | n + 1, state =>
    match hmap_lookup t key state with
    | none => []
    | some (object, state') => object :: lookupStream t key n state'

/-- The bucket layout after inserting only objects with key `k` (and nothing
else) into an hmap: `run` lists the stored objects in probe-distance order;
they occupy the `run.length` consecutive buckets starting at the home bucket
of the sanitized hash of `k` (wrapping modulo the power-of-two size), every
such cell stores that hash, and every other cell is `FREE`. -/
def HRun (k : Nat) (t : Hmap) (run : List HObj) : Prop :=
  (∃ g, t.size = 2 ^ g) ∧
  t.hashes.length = t.size ∧ t.objects.length = t.size ∧
  t.count = run.length ∧ run.length < t.size ∧
  (∀ o ∈ run, o.key = k) ∧
  (∀ j, (h : j < run.length) →
    lget t.hashes (hmap_index t (hmap_calc_hash t k) j) 0 = hmap_calc_hash t k ∧
    lget t.objects (hmap_index t (hmap_calc_hash t k) j) default = run.get ⟨j, h⟩) ∧
  (∀ i, i < t.size → (∀ j, j < run.length → i ≠ hmap_index t (hmap_calc_hash t k) j) →
    lget t.hashes i 0 = HMAP_HASH_FREE)

/-! ## Flow table: data model (ft.h / ft.c) -/

/-- Flow entry lifecycle state.  Modelled from the spec: `ft_entry.h` is not
among the staged sources; the spec fixes the states `FREE`, `NEW`,
`DELETE_MARKED`, with `FREE` the zero-initialized state. -/
inductive FtFlowState where
  | FREE
  | NEW
  | DELETE_MARKED
deriving DecidableEq, Repr

/-- `FT_FLOW_STATE_IS_DELETED`.  Modelled from the spec: true exactly on the
deleting states, of which `DELETE_MARKED` is the only one. -/
def FT_FLOW_STATE_IS_DELETED (s : FtFlowState) : Bool := s = FtFlowState.DELETE_MARKED

/-- `indigo_error_t` values used by ft.c. -/
inductive IndigoError where
  | NONE
  | EXISTS
  | RESOURCE
  | NOT_FOUND
  | UNKNOWN
deriving DecidableEq, Repr

/-- `INDIGO_FLOW_ID_INVALID`.  Modelled from the spec: the reserved
free-marker flow id; the zero-initialized entry pool starts with this id,
so it is modelled as 0. -/
def INDIGO_FLOW_ID_INVALID : Nat := 0

/-- The monotonic time source `INDIGO_CURRENT_TIME` (external collaborator);
its value is irrelevant to the embedded control flow. -/
def INDIGO_CURRENT_TIME : Nat := 0

/-- Model of the external LOCI flow-add/flow-mod message, reduced to what
ft.c extracts from it: the field values, plus flags describing whether the
three fallible external calls on it succeed (`of_object_dup`,
`of_flow_add_match_get`, and the action/instruction list getter inside
`ft_flow_set_effects`).  The version-1.0 and version-1.1 branches of
`ft_flow_set_effects` differ only in which external list they fetch; both
are modelled by `effectsOk`/`actions`/`out_ports`. -/
structure FlowAdd where
  dupOk : Bool
  matchOk : Bool
  effectsOk : Bool
  matchKey : Nat
  cookie : Nat
  priority : Nat
  flags : Nat
  idle_timeout : Nat
  hard_timeout : Nat
  actions : Nat
  out_ports : List Nat
deriving DecidableEq, Repr

/-- `ft_entry_t`.  The opaque `of_match_t` is an abstract key compared by
`memcmp`, modelled as a `Nat` with decidable equality; owned pointers are
`Option` values (`none` = NULL). -/
structure FtEntry where
  id : Nat
  state : FtFlowState
  matchKey : Nat
  priority : Nat
  cookie : Nat
  table_id : Nat
  flags : Nat
  idle_timeout : Nat
  hard_timeout : Nat
  flow_add : Option FlowAdd
  effects : Option Nat
  output_ports : List Nat
  queued_reqs : List Nat
  packets : Nat
  bytes : Nat
  insert_time : Nat
  last_counter_change : Nat
  removed_reason : Nat
deriving DecidableEq, Repr

/-- The zero-initialized entry, as `INDIGO_MEM_SET(..., 0, ...)` leaves the
pool at creation. -/
instance : Inhabited FtEntry :=
  ⟨⟨INDIGO_FLOW_ID_INVALID, .FREE, 0, 0, 0, 0, 0, 0, 0, none, none, [], [], 0, 0, 0, 0, 0⟩⟩

/-- `ft_status_t` (the counters ft.c touches; `current_count` and
`pending_deletes` are C `int`s). -/
structure FtStatus where
  current_count : Int
  pending_deletes : Int
  adds : Nat
  deletes : Nat
  hard_expires : Nat
  idle_expires : Nat
  updates : Nat
  table_full_errors : Nat
  forwarding_add_errors : Nat
deriving DecidableEq, Repr

/-- `struct ft_public_s`.  Modelled from the spec: the `hindex` module (the
hmap wrapper the three indexes instantiate) is not among the staged
sources; an index is modelled as the list of entry slots it holds, whose
keyed iteration (`hindex_lookup` with a state cursor) yields its members
with the matching key in list order.  The two intrusive lists are lists of
slot indices (`list_push` appends at the tail, `list_pop` takes the
head). -/
structure FtInstance where
  max_entries : Nat
  entries : List FtEntry
  free_list : List Nat
  all_list : List Nat
  flow_id_index : List Nat
  priority_index : List Nat
  match_index : List Nat
  status : FtStatus
deriving DecidableEq, Repr

/-- The entry in slot `i`. -/
def ft_ent (ft : FtInstance) (i : Nat) : FtEntry := lget ft.entries i default

/-- `ft_hash_create` for `max_entries > 0` (the successful path): a
zeroed pool with every slot on the free list and empty indexes. -/
def ft_hash_create (max_entries : Nat) : FtInstance :=
  { max_entries := max_entries,
    entries := List.replicate max_entries default,
    free_list := List.range max_entries,
    all_list := [],
    flow_id_index := [],
    priority_index := [],
    match_index := [],
    status := ⟨0, 0, 0, 0, 0, 0, 0, 0, 0⟩ }

/-- `ft_id_lookup`: `hindex_lookup` on the flow-id index with a NULL state:
the first linked entry whose id matches.  Returns the slot index. -/
def ft_id_lookup (ft : FtInstance) (id : Nat) : Option Nat :=
  ft.flow_id_index.find? (fun i => (ft_ent ft i).id == id)

/-- `ft_flow_set_effects`: replace the output-port list and the effects;
fails with `RESOURCE` (entry untouched) when the external list getter
returns NULL. -/
def ft_flow_set_effects (entry : FtEntry) (flow_mod : FlowAdd) : IndigoError × FtEntry :=
  if !flow_mod.effectsOk then (.RESOURCE, entry)
  else (.NONE, { entry with output_ports := flow_mod.out_ports,
                            effects := some flow_mod.actions })

/-- `ft_entry_setup`: initialize the data of an entry being added, mutating
the entry field by field exactly as the C code does before each fallible
step, so a failure leaves the partial mutation in place.  The freed
duplicate on the unextractable-match path is modelled by resetting
`flow_add` to `none`. -/
def ft_entry_setup (entry : FtEntry) (id : Nat) (flow_add : FlowAdd) :
    IndigoError × FtEntry :=
  let e0 := { entry with id := id }
  if !flow_add.dupOk then (.RESOURCE, e0)
  else
    let e1 := { e0 with state := FtFlowState.NEW, queued_reqs := [],
                        flow_add := some flow_add }
    if !flow_add.matchOk then (.UNKNOWN, { e1 with flow_add := none })
    else
      let e2 := { e1 with matchKey := flow_add.matchKey, cookie := flow_add.cookie,
                          priority := flow_add.priority, flags := flow_add.flags,
                          idle_timeout := flow_add.idle_timeout,
                          hard_timeout := flow_add.hard_timeout }
      match ft_flow_set_effects e2 flow_add with
      | (.NONE, e3) => (.NONE, { e3 with insert_time := INDIGO_CURRENT_TIME,
                                         last_counter_change := INDIGO_CURRENT_TIME })
      | (err, e3) => (err, e3)

/-- `ft_entry_link`: push onto the all-entries list and insert into the
three indexes. -/
def ft_entry_link (ft : FtInstance) (i : Nat) : FtInstance :=
  { ft with all_list := i :: ft.all_list,
            flow_id_index := i :: ft.flow_id_index,
            priority_index := i :: ft.priority_index,
            match_index := i :: ft.match_index }

/-- `ft_entry_unlink`: remove from the all-entries list and the three
indexes. -/
def ft_entry_unlink (ft : FtInstance) (i : Nat) : FtInstance :=
  { ft with all_list := ft.all_list.erase i,
            flow_id_index := ft.flow_id_index.erase i,
            priority_index := ft.priority_index.erase i,
            match_index := ft.match_index.erase i }

/-- `ft_hash_flow_add`.  The out-parameter `entry_p` is modelled by the
content of the pointed-to location: `none` is a NULL `entry_p`, `some x`
a non-null one whose location currently holds `x`; the returned third
component is that location's content when the call returns.  Note that on
an `ft_entry_setup` failure the popped slot is NOT pushed back onto the
free list — this mirrors the C code. -/
def ft_hash_flow_add (ft : FtInstance) (id : Nat) (flow_add : FlowAdd)
    (entry_p : Option Nat) : IndigoError × FtInstance × Option Nat :=
  match ft_id_lookup ft id with
  | some _ => (.EXISTS, ft, entry_p)
  | none =>
    match ft.free_list with
    | [] =>
      (.RESOURCE,
       { ft with status := { ft.status with
                             table_full_errors := ft.status.table_full_errors + 1 } },
       entry_p)
    | i :: rest =>
      let ft1 := { ft with free_list := rest }
      match ft_entry_setup (ft_ent ft1 i) id flow_add with
      | (.NONE, e) =>
        let ft2 := { ft1 with entries := ft1.entries.set i e }
        let ft3 := ft_entry_link ft2 i
        let st3 := { ft3.status with adds := ft3.status.adds + 1,
                                     current_count := ft3.status.current_count + 1 }
        (.NONE, { ft3 with status := st3 }, entry_p.map (fun _ => i))
      | (err, e) => (err, { ft1 with entries := ft1.entries.set i e }, entry_p)

/-- `ft_flow_mark_deleted`: a no-op on an already-deleted entry; otherwise
set `DELETE_MARKED`, record the reason and increment `pending_deletes`. -/
def ft_flow_mark_deleted (ft : FtInstance) (i : Nat) (reason : Nat) : FtInstance :=
  let entry := ft_ent ft i
  if FT_FLOW_STATE_IS_DELETED entry.state then ft
  else
    { ft with
      entries := ft.entries.set i
        { entry with state := FtFlowState.DELETE_MARKED, removed_reason := reason },
      status := { ft.status with pending_deletes := ft.status.pending_deletes + 1 } }

/-- `ft_entry_clear`: release the owned data, reset the id to `INVALID`,
decrement `pending_deletes` when the entry was being deleted, and set the
state to `FREE`. -/
def ft_entry_clear (ft : FtInstance) (i : Nat) : FtInstance :=
  let entry := ft_ent ft i
  let e := { entry with output_ports := ([] : List Nat), effects := none,
                        flow_add := none, queued_reqs := ([] : List Nat),
                        id := INDIGO_FLOW_ID_INVALID, state := FtFlowState.FREE }
  let st := if FT_FLOW_STATE_IS_DELETED entry.state
            then { ft.status with pending_deletes := ft.status.pending_deletes - 1 }
            else ft.status
  { ft with entries := ft.entries.set i e, status := st }

/-- `ft_hash_flow_delete` on the entry in slot `i`: reject an entry whose id
is the `INVALID` marker with `UNKNOWN` and no state change; otherwise
unlink, clear, push onto the free list and update the counters. -/
def ft_hash_flow_delete (ft : FtInstance) (i : Nat) : IndigoError × FtInstance :=
  if (ft_ent ft i).id = INDIGO_FLOW_ID_INVALID then (.UNKNOWN, ft)
  else
    let ft1 := ft_entry_unlink ft i
    let ft2 := ft_entry_clear ft1 i
    let st2 := { ft2.status with current_count := ft2.status.current_count - 1,
                                 deletes := ft2.status.deletes + 1 }
    (.NONE, { ft2 with free_list := ft2.free_list ++ [i], status := st2 })

/-- `of_match_mode_t` of the meta-match record. -/
inductive OfMatchMode where
  | NON_STRICT
  | STRICT
  | COOKIE_ONLY
  | OVERLAP
deriving DecidableEq, Repr

/-- `TABLE_ID_ANY` sentinel (external constant; its value is opaque to
ft.c). -/
def TABLE_ID_ANY : Nat := 255

/-- `OF_PORT_DEST_WILDCARD` sentinel (external constant; its value is opaque
to ft.c). -/
def OF_PORT_DEST_WILDCARD : Nat := 0xffffffff

/-- `of_meta_match_t`. -/
structure OfMetaMatch where
  mode : OfMatchMode
  matchKey : Nat
  priority : Nat
  check_priority : Bool
  cookie : Nat
  cookie_mask : Nat
  table_id : Nat
  out_port : Nat
deriving DecidableEq, Repr

/-- `entry_has_out_port`. -/
def entry_has_out_port (entry : FtEntry) (port : Nat) : Bool :=
  entry.output_ports.contains port

/-- `ft_flow_meta_match`.  The external match predicates
`of_match_more_specific` and `of_match_overlap` are parameters;
`of_match_eq` is `memcmp` equality of the opaque match keys. -/
def ft_flow_meta_match (more_specific overlap : Nat → Nat → Bool)
    (query : OfMetaMatch) (entry : FtEntry) : Bool :=
  if FT_FLOW_STATE_IS_DELETED entry.state then false
  else if query.cookie_mask ≠ 0 ∧
      query.cookie &&& query.cookie_mask ≠ entry.cookie &&& query.cookie_mask then false
  else if query.table_id ≠ TABLE_ID_ANY ∧ query.table_id ≠ entry.table_id then false
  else if query.check_priority ∧ entry.priority ≠ query.priority then false
  else
    match query.mode with
    | .NON_STRICT =>
      more_specific entry.matchKey query.matchKey &&
        (query.out_port == OF_PORT_DEST_WILDCARD || entry_has_out_port entry query.out_port)
    | .STRICT =>
      (entry.matchKey == query.matchKey) &&
        (query.out_port == OF_PORT_DEST_WILDCARD || entry_has_out_port entry query.out_port)
    | .COOKIE_ONLY => true
    | .OVERLAP => overlap entry.matchKey query.matchKey

/-- `ft_flow_first_match`: pick the candidate sequence (exact-match index
iteration for `STRICT`, priority-index iteration when `check_priority`,
otherwise the all-entries list) and return the first candidate that is not
deleted and meta-matches.  `some` is `INDIGO_ERROR_NONE` with the entry
stored through `entry_ptr`; `none` is `INDIGO_ERROR_NOT_FOUND`. -/
def ft_flow_first_match (more_specific overlap : Nat → Nat → Bool)
    (ft : FtInstance) (query : OfMetaMatch) : Option FtEntry :=
  if query.mode = OfMatchMode.STRICT then
    ((ft.match_index.map (ft_ent ft)).filter (fun e => e.matchKey == query.matchKey)).find?
      (fun e => !FT_FLOW_STATE_IS_DELETED e.state &&
        ft_flow_meta_match more_specific overlap query e)
  else if query.check_priority then
    ((ft.priority_index.map (ft_ent ft)).filter (fun e => e.priority == query.priority)).find?
      (fun e => !FT_FLOW_STATE_IS_DELETED e.state &&
        ft_flow_meta_match more_specific overlap query e)
  else
    (ft.all_list.map (ft_ent ft)).find?
      (fun e => !FT_FLOW_STATE_IS_DELETED e.state &&
        ft_flow_meta_match more_specific overlap query e)

/-- `ft_flow_query`: same candidate selection and filter as
`ft_flow_first_match`, prepending every passing entry onto the result list
(so the result is the reverse of traversal order). -/
def ft_flow_query (more_specific overlap : Nat → Nat → Bool)
    (ft : FtInstance) (query : OfMetaMatch) : List FtEntry :=
  if query.mode = OfMatchMode.STRICT then
    (((ft.match_index.map (ft_ent ft)).filter (fun e => e.matchKey == query.matchKey)).filter
      (fun e => !FT_FLOW_STATE_IS_DELETED e.state &&
        ft_flow_meta_match more_specific overlap query e)).reverse
  else if query.check_priority then
    (((ft.priority_index.map (ft_ent ft)).filter (fun e => e.priority == query.priority)).filter
      (fun e => !FT_FLOW_STATE_IS_DELETED e.state &&
        ft_flow_meta_match more_specific overlap query e)).reverse
  else
    ((ft.all_list.map (ft_ent ft)).filter
      (fun e => !FT_FLOW_STATE_IS_DELETED e.state &&
        ft_flow_meta_match more_specific overlap query e)).reverse

/-- The number of pool entries in a deleting state; the flow-table invariant
says `status.pending_deletes` equals this. -/
def ft_deleted_count (ft : FtInstance) : Nat :=
  ft.entries.countP (fun e => FT_FLOW_STATE_IS_DELETED e.state)

/-- Flow-table states reachable by `add`, `mark_deleted` and `delete` calls.
`mark_deleted` and `delete` take an entry pointer the caller obtained from
the table (its lookups and queries only hand out linked entries), modelled
by requiring the slot to be on the all-entries list. -/
inductive FtReachable : FtInstance → Prop where
  | create (max_entries : Nat) : 0 < max_entries → FtReachable (ft_hash_create max_entries)
  | add {ft : FtInstance} (id : Nat) (flow_add : FlowAdd) (entry_p : Option Nat) :
      FtReachable ft → FtReachable (ft_hash_flow_add ft id flow_add entry_p).2.1
  | mark_deleted {ft : FtInstance} (i reason : Nat) : FtReachable ft →
      i ∈ ft.all_list → FtReachable (ft_flow_mark_deleted ft i reason)
  | delete {ft : FtInstance} (i : Nat) : FtReachable ft →
      i ∈ ft.all_list → FtReachable (ft_hash_flow_delete ft i).2

/-! ## Concrete states used by the theorems -/

/-- The trivial (identity) hash function of the hmap unit test. -/
def trivialHash : Nat → Nat := fun k => k

/-- Robin-Hood displacement scenario: insert keys 1, 2, 9 with the trivial
hash into a fresh default-load-factor hmap. -/
def hmapScenarioRH : Option Hmap :=
  (hmap_insert (hmap_create trivialHash 0 0) ⟨1, 1⟩).bind
    (fun t => hmap_insert t ⟨2, 2⟩) |>.bind (fun t => hmap_insert t ⟨9, 9⟩)

/-- A reachable state with a tombstone: insert keys 1 and 2 with the trivial
hash, then remove the key-2 object (leaving a tombstone in bucket 2). -/
def hmapTombState : Option Hmap :=
  (hmap_insert (hmap_create trivialHash 0 0) ⟨1, 1⟩).bind
    (fun t => hmap_insert t ⟨2, 2⟩) |>.bind (fun t => hmap_remove t ⟨2, 2⟩)

/-- The tombstone state itself. -/
def hmapTomb : Hmap := hmapTombState.getD (hmap_create trivialHash 0 0)

/-- A hash function hitting the sanitization corner case: it always returns
`0x80000000` (only the tombstone bit set). -/
def hashHighBit : Nat → Nat := fun _ => HMAP_HASH_DELETED_BIT

/-- A one-slot flow table. -/
def ftOne : FtInstance := ft_hash_create 1

/-- A flow-add message whose deep copy (`of_object_dup`) fails. -/
def faDupFail : FlowAdd :=
  { dupOk := false, matchOk := true, effectsOk := true, matchKey := 5, cookie := 0,
    priority := 1, flags := 0, idle_timeout := 0, hard_timeout := 0, actions := 0,
    out_ports := [] }

/-- A flow-add message on which every external call succeeds. -/
def faGood : FlowAdd := { faDupFail with dupOk := true }

/-- A meta-match query used by witnesses: non-strict, no priority check. -/
def queryW : OfMetaMatch :=
  { mode := OfMatchMode.NON_STRICT, matchKey := 5, priority := 0, check_priority := false,
    cookie := 0, cookie_mask := 0, table_id := TABLE_ID_ANY,
    out_port := OF_PORT_DEST_WILDCARD }

/-- The flow-table state invariant tying the status counters and the
intrusive lists together. -/
def FtInv (ft : FtInstance) : Prop :=
  ft.entries.length = ft.max_entries ∧
  ft.free_list.Nodup ∧ ft.all_list.Nodup ∧
  (∀ i ∈ ft.free_list, (ft_ent ft i).state = FtFlowState.FREE) ∧
  (∀ i ∈ ft.all_list, i ∉ ft.free_list) ∧
  (∀ i ∈ ft.all_list, i < ft.max_entries) ∧
  (∀ i ∈ ft.free_list, i < ft.max_entries) ∧
  ft.status.pending_deletes = (ft_deleted_count ft : Int)

/-- Witness flow table: a two-slot table after one successful add. -/
def ftW1 : FtInstance := (ft_hash_flow_add (ft_hash_create 2) 7 faGood none).2.1

/-- Witness flow table after marking the added entry deleted. -/
def ftW2 : FtInstance := ft_flow_mark_deleted ftW1 0 3

/-- A fresh default-load-factor hmap with the trivial hash (witness state). -/
def hmapW0 : Hmap := hmap_create trivialHash 0 0

/-- The witness state after one insert. -/
def hmapW1 : Hmap := (hmap_insert hmapW0 ⟨1, 1⟩).getD hmapW0

/-! ## Helper lemmas -/

def ft_cleared (e : FtEntry) : FtEntry :=
  { e with output_ports := ([] : List Nat), effects := none, flow_add := none,
           queued_reqs := ([] : List Nat), id := INDIGO_FLOW_ID_INVALID,
           state := FtFlowState.FREE }

theorem nat_and_two_pow_sub_one (x g : Nat) : x &&& (2 ^ g - 1) = x % 2 ^ g := by
  apply Nat.eq_of_testBit_eq
  intro i
  rw [Nat.testBit_and, Nat.testBit_mod_two_pow, Nat.testBit_two_pow_sub_one]
  cases h : x.testBit i <;> simp [h]

theorem lget_eq (l : List α) (i : Nat) (d : α) : lget l i d = (l[i]?).getD d := rfl

/-! ## Claim C1 -/

/-- Claim C1 (evaluation at the failing input): on a one-slot table, an add
whose `of_object_dup` fails returns `RESOURCE`, but the slot popped from
the free list is NOT back on the free list when the call returns (the free
list went from `[0]` to `[]` while `current_count` stayed 0), contradicting
the spec's "the partially initialized slot is returned to the free list
before the error is returned". -/
theorem ft_add_setup_failure_leaks_slot :
    (ft_hash_flow_add ftOne 7 faDupFail none).1 = IndigoError.RESOURCE ∧
    ftOne.free_list = [0] ∧
    (ft_hash_flow_add ftOne 7 faDupFail none).2.1.free_list = [] ∧
    (ft_hash_flow_add ftOne 7 faDupFail none).2.1.status.current_count = 0 := by
  decide

/-! ## Claim C3 -/

/-- Claim C3 (counterexample): at the raw hash `0x80000000`, the sanitized
hash computed by `hmap_calc_hash` is 1, not the value
`(raw & 0x7FFFFFFF) | (raw == 0 ? 1 : 0) = 0` the claim states — the code
tests the already-masked hash against `FREE`, not the raw hash. -/
theorem hmap_calc_hash_formula_cex :
    ¬ (hmap_calc_hash (hmap_create hashHighBit 0 0) 0 =
       (hashHighBit 0 &&& 0x7FFFFFFF) ||| (if hashHighBit 0 = 0 then 1 else 0)) := by
  decide

/-- Claim C3 (amended): for every raw hash value, the sanitized hash equals
`m == 0 ? 1 : m` where `m = raw & 0x7FFFFFFF` is the raw hash with the
tombstone bit cleared (the `FREE` test is applied to the masked value, not
the raw one); in particular it is never the `FREE` sentinel 0 and never
has the tombstone bit `0x80000000` set. -/
theorem hmap_calc_hash_sanitized (t : Hmap) (key : Nat) :
    hmap_calc_hash t key =
      (if t.hashFn key % 2 ^ 31 = 0 then 1 else t.hashFn key % 2 ^ 31) ∧
    hmap_calc_hash t key ≠ HMAP_HASH_FREE ∧
    hmap_calc_hash t key &&& HMAP_HASH_DELETED_BIT = 0 := by
  have hmask : t.hashFn key &&& 0x7FFFFFFF = t.hashFn key % 2 ^ 31 := by
    have := nat_and_two_pow_sub_one (t.hashFn key) 31
    norm_num at this ⊢
    exact this
  have hlt : t.hashFn key % 2 ^ 31 < 2 ^ 31 := Nat.mod_lt _ (by norm_num)
  unfold hmap_calc_hash HMAP_HASH_FREE HMAP_HASH_DELETED_BIT
  rw [hmask]
  by_cases h0 : t.hashFn key % 2 ^ 31 = 0
  · simp only [h0, if_pos rfl]
    refine ⟨rfl, by norm_num, by decide⟩
  · simp only [if_neg h0]
    rw [Nat.or_zero]
    refine ⟨rfl, h0, ?_⟩
    apply Nat.eq_of_testBit_eq
    intro i
    rw [Nat.testBit_and]
    rcases eq_or_ne i 31 with h | h
    · subst h
      rw [Nat.testBit_lt_two_pow hlt]
      rfl
    · rw [Nat.testBit_two_pow_of_ne (Ne.symm h)]
      simp

/-- Witness for the amended C3 theorem at concrete inputs. -/
theorem hmap_calc_hash_sanitized_witness :
    hmap_calc_hash (hmap_create hashHighBit 0 0) 0 = 1 ∧
    hmap_calc_hash (hmap_create trivialHash 0 0) 9 = 9 := by
  constructor
  · have h := (hmap_calc_hash_sanitized (hmap_create hashHighBit 0 0) 0).1
    rw [h]
    decide
  · have h := (hmap_calc_hash_sanitized (hmap_create trivialHash 0 0) 9).1
    rw [h]
    decide

/-! ## Claim C4 -/

/-- Claim C4: with the trivial hash and an initial size-8 table, inserting
keys 1, 2, 9 in that order yields slot 1 = obj1, slot 2 = obj9 (the insert
of key 9 displaces obj2), slot 3 = obj2, and lookups of keys 1, 2, 9
return the corresponding objects. -/
theorem hmap_robin_hood_displacement :
    (hmapScenarioRH.map fun t => (t.hashes, t.objects.map HObj.oid)) =
      some ([0, 1, 9, 2, 0, 0, 0, 0], [0, 1, 9, 2, 0, 0, 0, 0]) ∧
    (hmapScenarioRH.bind fun t => (hmap_lookup t 1 0).map fun p => p.1) = some ⟨1, 1⟩ ∧
    (hmapScenarioRH.bind fun t => (hmap_lookup t 2 0).map fun p => p.1) = some ⟨2, 2⟩ ∧
    (hmapScenarioRH.bind fun t => (hmap_lookup t 9 0).map fun p => p.1) = some ⟨9, 9⟩ := by
  decide

/-! ## Claim C9 -/

/-- Claim C9: `ft_hash_flow_delete` on an entry whose id is the `INVALID`
marker is total and recoverable: it returns `INDIGO_ERROR_UNKNOWN` and the
flow table is completely unchanged. -/
theorem ft_delete_invalid_id_noop (ft : FtInstance) (i : Nat)
    (h : (ft_ent ft i).id = INDIGO_FLOW_ID_INVALID) :
    ft_hash_flow_delete ft i = (IndigoError.UNKNOWN, ft) := by
  unfold ft_hash_flow_delete
  rw [if_pos h]

/-- Witness for C9: deleting the (never used, id = INVALID) slot 0 of a
fresh two-slot table returns `UNKNOWN` and leaves the table unchanged. -/
theorem ft_delete_invalid_id_noop_witness :
    ft_hash_flow_delete (ft_hash_create 2) 0 = (IndigoError.UNKNOWN, ft_hash_create 2) :=
  ft_delete_invalid_id_noop (ft_hash_create 2) 0 (by decide)

/-! ## Claim C2 -/

theorem hmap_index_zero_mod (t : Hmap) (g : Nat) (hsize : t.size = 2 ^ g) (x : Nat) :
    hmap_index t x 0 = x % 2 ^ g := by
  unfold hmap_index
  rw [Nat.add_zero, hsize, nat_and_two_pow_sub_one]

/-- The probe distance the lookup's early exit computes for a tombstone cell
equals the probe distance of its retained hash: the tombstone bit vanishes
under the `& (size - 1)` mask (sizes are powers of two of at most 2^31). -/
theorem hmap_distance_high_bit (t : Hmap) (g : Nat) (hg : g ≤ 31) (hsize : t.size = 2 ^ g)
    (idx low : Nat) :
    hmap_distance t idx (HMAP_HASH_DELETED_BIT + low) = hmap_distance t idx low := by
  have h31 : HMAP_HASH_DELETED_BIT = 2 ^ (31 - g) * 2 ^ g := by
    rw [← pow_add]
    have hexp : 31 - g + g = 31 := by omega
    rw [hexp]
    unfold HMAP_HASH_DELETED_BIT
    norm_num
  have hmod : (HMAP_HASH_DELETED_BIT + low) % 2 ^ g = low % 2 ^ g := by
    rw [h31, Nat.add_comm, Nat.add_mul_mod_self_right]
  unfold hmap_distance
  rw [hmap_index_zero_mod t g hsize, hmap_index_zero_mod t g hsize, hmod]

/-- Claim C2 (counterexample): a reachable state (trivial hash; insert keys
1 and 2, remove the key-2 object) in which the lookup scan for key 9 at
probe distance 1 reaches a tombstone cell and exits with "not found"
instead of advancing to distance 2: the tombstone's retained-hash probe
distance (0) is smaller than the scan distance (1), and the code's early
exit does not exclude tombstones. -/
theorem hmap_lookup_tombstone_break_cex :
    HmapReachable trivialHash 0 0 hmapTomb ∧
    lget hmapTomb.hashes (hmap_index hmapTomb (hmap_calc_hash hmapTomb 9) 1) 0 &&&
      HMAP_HASH_DELETED_BIT ≠ 0 ∧
    hmap_lookup_step hmapTomb 9 (hmap_calc_hash hmapTomb 9) 1 = HLookupStep.brk ∧
    hmap_lookup hmapTomb 9 0 = none := by
  refine ⟨?_, by decide, by decide, by decide⟩
  exact HmapReachable.remove ⟨2, 2⟩
    (HmapReachable.insert ⟨2, 2⟩
      (HmapReachable.insert ⟨1, 1⟩ HmapReachable.create rfl) rfl) rfl

/-- Claim C2 (amended): during `hmap_lookup`, a tombstone cell never
matches and never triggers the `FREE` exit; at probe distance `d` the scan
advances past a tombstone exactly when the tombstone's probe distance —
computed from its retained hash, the deleted bit being cancelled by the
`& (size - 1)` mask — is at least `d`, and exits with "not found" exactly
when that probe distance is smaller than `d`, the same rule as for a live
occupant. -/
theorem hmap_lookup_tombstone_exit (t : Hmap) (g : Nat) (hg : g ≤ 31)
    (hsize : t.size = 2 ^ g) (key hash distance : Nat) (hd : distance < t.size)
    (hhash : hash < 2 ^ 31) (low : Nat)
    (htomb : lget t.hashes (hmap_index t hash distance) 0 = HMAP_HASH_DELETED_BIT + low) :
    (hmap_lookup_step t key hash distance =
      (if hmap_distance t (hmap_index t hash distance) low < distance
       then HLookupStep.brk else HLookupStep.advance)) ∧
    (∀ fuel, hmap_lookup_go t key hash (fuel + 1) distance =
      (if hmap_distance t (hmap_index t hash distance) low < distance
       then none else hmap_lookup_go t key hash fuel (distance + 1))) := by
  have hne : HMAP_HASH_DELETED_BIT + low ≠ hash := by
    unfold HMAP_HASH_DELETED_BIT
    norm_num at hhash ⊢
    omega
  have hnz : HMAP_HASH_DELETED_BIT + low ≠ HMAP_HASH_FREE := by
    unfold HMAP_HASH_DELETED_BIT HMAP_HASH_FREE
    norm_num
  have hstep : hmap_lookup_step t key hash distance =
      (if hmap_distance t (hmap_index t hash distance) low < distance
       then HLookupStep.brk else HLookupStep.advance) := by
    simp only [hmap_lookup_step]
    rw [htomb, if_neg hne, hmap_distance_high_bit t g hg hsize]
    by_cases hlt : hmap_distance t (hmap_index t hash distance) low < distance
    · rw [if_pos (Or.inr hlt), if_pos hlt]
    · rw [if_neg ?_, if_neg hlt]
      rintro (h0 | h1)
      · exact hnz h0
      · exact hlt h1
  refine ⟨hstep, fun fuel => ?_⟩
  show (if distance < t.size then _ else _) = _
  rw [if_pos hd, hstep]
  by_cases hlt : hmap_distance t (hmap_index t hash distance) low < distance
  · rw [if_pos hlt, if_pos hlt]
  · rw [if_neg hlt, if_neg hlt]

/-- Witness for the amended C2 theorem: in the concrete tombstone state the
scan for key 9 at distance 1 sits on a tombstone of retained probe
distance 0 < 1, so the step breaks and the loop returns "not found". -/
theorem hmap_lookup_tombstone_exit_witness :
    hmap_lookup_step hmapTomb 9 9 1 = HLookupStep.brk ∧
    hmap_lookup_go hmapTomb 9 9 7 1 = none := by
  have h := hmap_lookup_tombstone_exit hmapTomb 3 (by norm_num) (by decide) 9 9 1
    (by decide) (by norm_num) 2 (by decide)
  refine ⟨?_, ?_⟩
  · rw [h.1]
    decide
  · rw [h.2 6]
    decide

/-! ## Claim C8 -/

theorem find_isSome_iff_filter_reverse_ne_nil (l : List FtEntry) (p : FtEntry → Bool) :
    (l.find? p).isSome ↔ (l.filter p).reverse ≠ [] := by
  simp only [List.find?_isSome, Ne, List.reverse_eq_nil_iff, List.filter_eq_nil_iff]
  push_neg
  simp

/-- Claim C8: for every flow-table state and meta-match query,
`ft_flow_first_match` finds an entry (returns `INDIGO_ERROR_NONE`) exactly
when `ft_flow_query` returns a non-empty list, and when `first_match`
returns `NOT_FOUND` the query list is empty — both walk the same candidate
sequence with the same filter. -/
theorem ft_first_match_iff_query (more_specific overlap : Nat → Nat → Bool)
    (ft : FtInstance) (query : OfMetaMatch) :
    ((ft_flow_first_match more_specific overlap ft query).isSome ↔
      ft_flow_query more_specific overlap ft query ≠ []) ∧
    (ft_flow_first_match more_specific overlap ft query = none →
      ft_flow_query more_specific overlap ft query = []) := by
  have main : (ft_flow_first_match more_specific overlap ft query).isSome ↔
      ft_flow_query more_specific overlap ft query ≠ [] := by
    unfold ft_flow_first_match ft_flow_query
    by_cases hmode : query.mode = OfMatchMode.STRICT
    · rw [if_pos hmode, if_pos hmode]
      exact find_isSome_iff_filter_reverse_ne_nil _ _
    · rw [if_neg hmode, if_neg hmode]
      by_cases hprio : query.check_priority
      · rw [if_pos hprio, if_pos hprio]
        exact find_isSome_iff_filter_reverse_ne_nil _ _
      · rw [if_neg hprio, if_neg hprio]
        exact find_isSome_iff_filter_reverse_ne_nil _ _
  refine ⟨main, fun h => ?_⟩
  by_contra hne
  have hs := main.mpr hne
  rw [h] at hs
  simp at hs

/-- Witness for C8 at concrete inputs: on a fresh table the first-match call
misses and the query list is empty. -/
theorem ft_first_match_iff_query_witness :
    ft_flow_query (fun _ _ => true) (fun _ _ => true) ftOne queryW = [] := by
  have h := ft_first_match_iff_query (fun _ _ => true) (fun _ _ => true) ftOne queryW
  exact h.2 (by decide)

/-! ## Claim C10 -/

/-- Claim C10: `ft_hash_flow_add` writes through its out-parameter only on
success and tolerates a null out-parameter: whenever the call does not
return `INDIGO_ERROR_NONE` the pointed-to location is unchanged, and a
call with a null `entry_p` returns the same error code and the same table
state as one with a non-null `entry_p`. -/
theorem ft_add_out_param_frame (ft : FtInstance) (id : Nat) (flow_add : FlowAdd)
    (entry_p : Option Nat) (x : Nat) :
    ((ft_hash_flow_add ft id flow_add entry_p).1 ≠ IndigoError.NONE →
      (ft_hash_flow_add ft id flow_add entry_p).2.2 = entry_p) ∧
    (ft_hash_flow_add ft id flow_add (some x)).1 = (ft_hash_flow_add ft id flow_add none).1 ∧
    (ft_hash_flow_add ft id flow_add (some x)).2.1 =
      (ft_hash_flow_add ft id flow_add none).2.1 := by
  rcases hid : ft_id_lookup ft id with _ | j
  · rcases hfl : ft.free_list with _ | ⟨i, rest⟩
    · simp only [ft_hash_flow_add, hid, hfl]
      refine ⟨fun _ => ?_, ?_, ?_⟩ <;> trivial
    · rcases hs : ft_entry_setup (ft_ent { ft with free_list := rest } i) id flow_add
        with ⟨err, e⟩
      simp only [ft_hash_flow_add, hid, hfl, hs]
      cases err
      · exact ⟨fun hne => absurd rfl hne, rfl, rfl⟩
      · exact ⟨fun _ => rfl, rfl, rfl⟩
      · exact ⟨fun _ => rfl, rfl, rfl⟩
      · exact ⟨fun _ => rfl, rfl, rfl⟩
      · exact ⟨fun _ => rfl, rfl, rfl⟩
  · simp only [ft_hash_flow_add, hid]
    refine ⟨fun _ => ?_, ?_, ?_⟩ <;> trivial

/-- Witness for C10: the failed add leaves the out-parameter's location
untouched, and the error code agrees with the null-out-parameter call. -/
theorem ft_add_out_param_frame_witness :
    (ft_hash_flow_add ftOne 7 faDupFail (some 99)).2.2 = some 99 ∧
    (ft_hash_flow_add ftOne 7 faDupFail (some 99)).1 =
      (ft_hash_flow_add ftOne 7 faDupFail none).1 := by
  have h := ft_add_out_param_frame ftOne 7 faDupFail (some 99) 99
  exact ⟨h.1 (by decide), h.2.1⟩

/-! ## List helper lemmas -/

theorem lget_cons_zero (a : α) (l : List α) (d : α) : lget (a :: l) 0 d = a := by
  simp [lget]

theorem lget_cons_succ (a : α) (l : List α) (i : Nat) (d : α) :
    lget (a :: l) (i + 1) d = lget l i d := by
  simp [lget]

theorem countP_set_key (p : α → Bool) :
    ∀ (l : List α) (i : Nat) (v d : α), i < l.length →
      (l.set i v).countP p + (if p (lget l i d) then 1 else 0) =
        l.countP p + (if p v then 1 else 0) := by
  intro l
  induction l with
  | nil => intro i v d h; simp at h
  | cons a t ih =>
    intro i v d h
    cases i with
    | zero =>
      have hset : (a :: t).set 0 v = v :: t := rfl
      rw [hset, lget_cons_zero, List.countP_cons, List.countP_cons]
      omega
    | succ i =>
      have hset : (a :: t).set (i + 1) v = a :: t.set i v := rfl
      rw [hset, lget_cons_succ, List.countP_cons, List.countP_cons]
      have := ih i v d (by simpa using h)
      omega

theorem countP_zip_fst (p : Nat → Bool) :
    ∀ (l1 : List Nat) (l2 : List HObj), l1.length = l2.length →
      (l1.zip l2).countP (fun hv => p hv.1) = l1.countP p := by
  intro l1
  induction l1 with
  | nil => intro l2 _; simp
  | cons a t ih =>
    intro l2 hlen
    cases l2 with
    | nil => simp at hlen
    | cons b t2 =>
      rw [List.zip_cons_cons, List.countP_cons, List.countP_cons, ih t2 (by simpa using hlen)]

theorem countP_replicate_false (p : α → Bool) (x : α) (hx : p x = false) :
    ∀ n, (List.replicate n x).countP p = 0 := by
  intro n
  induction n with
  | zero => rfl
  | succ n ih => rw [List.replicate_succ, List.countP_cons, ih, hx]; rfl

theorem nat_or_and_self (a b : Nat) : (a ||| b) &&& b = b := by
  apply Nat.eq_of_testBit_eq
  intro i
  rw [Nat.testBit_and, Nat.testBit_or]
  cases h : b.testBit i <;> simp [h]

theorem and_high_bit_eq_zero (m : Nat) (hm : m < 2 ^ 31) : m &&& HMAP_HASH_DELETED_BIT = 0 := by
  have hbit : HMAP_HASH_DELETED_BIT = 2 ^ 31 := by unfold HMAP_HASH_DELETED_BIT; norm_num
  rw [hbit]
  apply Nat.eq_of_testBit_eq
  intro i
  rw [Nat.testBit_and]
  rcases eq_or_ne i 31 with h | h
  · subst h
    rw [Nat.testBit_lt_two_pow hm]
    simp
  · rw [Nat.testBit_two_pow_of_ne (Ne.symm h)]
    simp

theorem hmap_index_lt (t : Hmap) (hash distance : Nat) (hs : 0 < t.size) :
    hmap_index t hash distance < t.size := by
  unfold hmap_index
  have := Nat.and_le_right (n := hash + distance) (m := t.size - 1)
  omega

theorem hmap_calc_hash_live (t : Hmap) (key : Nat) :
    hmap_live (hmap_calc_hash t key) = true := by
  have hmask : t.hashFn key &&& 0x7FFFFFFF = t.hashFn key % 2 ^ 31 := by
    have := nat_and_two_pow_sub_one (t.hashFn key) 31
    norm_num at this ⊢
    exact this
  have hlt : t.hashFn key % 2 ^ 31 < 2 ^ 31 := Nat.mod_lt _ (by norm_num)
  simp only [hmap_calc_hash, hmap_live, HMAP_HASH_FREE, decide_eq_true_eq]
  rw [hmask]
  by_cases h0 : t.hashFn key % 2 ^ 31 = 0
  · rw [if_pos h0, h0]
    refine ⟨by norm_num, ?_⟩
    have h01 : (0 ||| 1 : Nat) = 1 := by decide
    rw [h01]
    exact and_high_bit_eq_zero 1 (by norm_num)
  · rw [if_neg h0, Nat.or_zero]
    exact ⟨h0, and_high_bit_eq_zero _ hlt⟩

/-! ## hmap insert/grow/remove accounting -/

theorem hmap_insert_go_spec :
    ∀ (fuel : Nat) (t : Hmap) (object : HObj) (hash distance : Nat) (t' : Hmap),
      hmap_insert_go fuel t object hash distance = some t' →
      t.hashes.length = t.size → t.objects.length = t.size → hmap_live hash = true →
      t'.count = t.count + 1 ∧ hmap_live_count t' = hmap_live_count t + 1 ∧
      t'.size = t.size ∧ t'.threshold = t.threshold ∧ t'.lfNum = t.lfNum ∧
      t'.lfDen = t.lfDen ∧ t'.hashFn = t.hashFn ∧
      t'.hashes.length = t.hashes.length ∧ t'.objects.length = t.objects.length := by
  intro fuel
  induction fuel with
  | zero =>
    intro t o hash d t' heq _ _ _
    simp [hmap_insert_go] at heq
  | succ fuel ih =>
    intro t o hash d t' heq hlen holen hlive
    simp only [hmap_insert_go] at heq
    by_cases hd : d < t.size
    · rw [if_pos hd] at heq
      have hs : 0 < t.size := by omega
      have hidx : hmap_index t hash d < t.size := hmap_index_lt t hash d hs
      split_ifs at heq with hc1 hc2
      · -- placement on a free or stolen-tombstone cell
        have hdead : hmap_live (lget t.hashes (hmap_index t hash d) 0) = false := by
          rcases hc1 with h | h
          · simp [hmap_live, h, HMAP_HASH_FREE]
          · simp only [hmap_live, decide_eq_false_iff_not]
            rintro ⟨_, hz⟩
            exact h.1 hz
        have hcount := countP_set_key hmap_live t.hashes (hmap_index t hash d) hash 0
          (by rw [hlen]; exact hidx)
        rw [hdead, hlive] at hcount
        simp at hcount
        cases heq
        refine ⟨rfl, ?_, rfl, rfl, rfl, rfl, rfl, by simp, by simp⟩
        show (t.hashes.set (hmap_index t hash d) hash).countP hmap_live =
          t.hashes.countP hmap_live + 1
        omega
      · -- swap with the occupant, continue with the displaced pair
        have hblive : hmap_live (lget t.hashes (hmap_index t hash d) 0) = true := by
          push_neg at hc1
          simp only [hmap_live, decide_eq_true_eq]
          refine ⟨hc1.1, ?_⟩
          by_contra hbit
          have := hc1.2 hbit
          omega
        have hcount := countP_set_key hmap_live t.hashes (hmap_index t hash d) hash 0
          (by rw [hlen]; exact hidx)
        rw [hblive, hlive] at hcount
        simp at hcount
        have hrec := ih _ _ _ _ _ heq (by simpa using hlen) (by simpa using holen) hblive
        simp only [hmap_live_count] at hrec ⊢
        simp only [List.length_set] at hrec
        exact ⟨hrec.1, by omega, hrec.2.2.1, hrec.2.2.2.1, hrec.2.2.2.2.1,
          hrec.2.2.2.2.2.1, hrec.2.2.2.2.2.2.1, by omega, by omega⟩
      · -- advance
        exact ih _ _ _ _ _ heq hlen holen hlive
    · rw [if_neg hd] at heq
      exact absurd heq (by simp)

theorem hmap_grow_fold_spec :
    ∀ (l : List (Nat × HObj)) (acc acc' : Hmap),
      l.foldlM hmap_grow_step acc = some acc' →
      acc.hashes.length = acc.size → acc.objects.length = acc.size →
      acc'.count = acc.count + l.countP (fun hv => hmap_live hv.1) ∧
      hmap_live_count acc' = hmap_live_count acc + l.countP (fun hv => hmap_live hv.1) ∧
      acc'.size = acc.size ∧ acc'.threshold = acc.threshold ∧ acc'.lfNum = acc.lfNum ∧
      acc'.lfDen = acc.lfDen ∧ acc'.hashFn = acc.hashFn ∧
      acc'.hashes.length = acc.hashes.length ∧ acc'.objects.length = acc.objects.length := by
  intro l
  induction l with
  | nil =>
    intro acc acc' heq _ _
    simp only [List.foldlM_nil] at heq
    cases heq
    simp
  | cons hv l ih =>
    intro acc acc' heq hlen holen
    rw [List.foldlM_cons] at heq
    rcases hstep : hmap_grow_step acc hv with _ | acc1
    · rw [hstep] at heq
      exact absurd heq (by simp)
    · rw [hstep] at heq
      simp only [Option.bind_eq_bind, Option.some_bind] at heq
      unfold hmap_grow_step at hstep
      by_cases hl : hv.1 ≠ HMAP_HASH_FREE ∧ hv.1 &&& HMAP_HASH_DELETED_BIT = 0
      · rw [if_pos hl] at hstep
        have hlive : hmap_live hv.1 = true := by
          simp only [hmap_live, decide_eq_true_eq]
          exact hl
        have h1 := hmap_insert_go_spec _ _ _ _ _ _ hstep hlen holen hlive
        have h2 := ih acc1 acc' heq (by omega) (by omega)
        rw [List.countP_cons, hlive]
        norm_num
        refine ⟨by omega, by omega, by omega, by omega, by omega, by omega, ?_,
          by omega, by omega⟩
        rw [h2.2.2.2.2.2.2.1, h1.2.2.2.2.2.2.1]
      · rw [if_neg hl] at hstep
        obtain rfl : acc = acc1 := by injection hstep
        have hlive : hmap_live hv.1 = false := by
          simp only [hmap_live, decide_eq_false_iff_not]
          exact hl
        have h2 := ih acc acc' heq hlen holen
        rw [List.countP_cons, hlive]
        simpa using h2

theorem hmap_grow_init_fields (t : Hmap) :
    (hmap_grow_init t).count = 0 ∧ (hmap_grow_init t).size = t.size * 2 ∧
    (hmap_grow_init t).threshold = t.size * 2 * t.lfNum / t.lfDen ∧
    (hmap_grow_init t).lfNum = t.lfNum ∧ (hmap_grow_init t).lfDen = t.lfDen ∧
    (hmap_grow_init t).hashFn = t.hashFn ∧
    (hmap_grow_init t).hashes.length = t.size * 2 ∧
    (hmap_grow_init t).objects.length = t.size * 2 ∧
    hmap_live_count (hmap_grow_init t) = 0 := by
  refine ⟨rfl, rfl, rfl, rfl, rfl, rfl, by simp [hmap_grow_init], by simp [hmap_grow_init], ?_⟩
  show (List.replicate (t.size * 2) HMAP_HASH_FREE).countP hmap_live = 0
  exact countP_replicate_false hmap_live HMAP_HASH_FREE (by decide) _

theorem hmap_grow_spec (t t' : Hmap) (hlen : t.hashes.length = t.size)
    (holen : t.objects.length = t.size) (heq : hmap_grow t = some t') :
    t'.size = t.size * 2 ∧ t'.count = hmap_live_count t ∧
    hmap_live_count t' = hmap_live_count t ∧
    t'.threshold = t.size * 2 * t.lfNum / t.lfDen ∧ t'.lfNum = t.lfNum ∧
    t'.lfDen = t.lfDen ∧ t'.hashFn = t.hashFn ∧
    t'.hashes.length = t'.size ∧ t'.objects.length = t'.size := by
  unfold hmap_grow at heq
  have hinit := hmap_grow_init_fields t
  have hfold := hmap_grow_fold_spec _ _ _ heq (by omega) (by omega)
  have hzip : (t.hashes.zip t.objects).countP (fun hv => hmap_live hv.1) =
      hmap_live_count t := by
    unfold hmap_live_count
    exact countP_zip_fst hmap_live t.hashes t.objects (by rw [hlen, holen])
  rw [hzip] at hfold
  refine ⟨by omega, by omega, by omega, by omega, by omega, by omega, ?_, by omega, by omega⟩
  rw [hfold.2.2.2.2.2.2.1, hinit.2.2.2.2.2.1]

theorem threshold_lt_size (size num den : Nat) (hs : 0 < size) (h : num < den) :
    size * num / den < size := by
  have hden : 0 < den := by omega
  rw [Nat.div_lt_iff_lt_mul hden]
  exact mul_lt_mul_of_pos_left h hs

theorem hmap_insert_spec (t : Hmap) (object : HObj) (t' : Hmap) (hinv : HmapInv t)
    (heq : hmap_insert t object = some t') :
    HmapInv t' ∧ t'.count = t.count + 1 ∧ t'.hashFn = t.hashFn ∧
    t'.lfNum = t.lfNum ∧ t'.lfDen = t.lfDen := by
  obtain ⟨hlen, holen, hs, hcl, hcs, hth, hlf⟩ := hinv
  unfold hmap_insert at heq
  by_cases hgr : t.threshold ≤ t.count
  · rw [if_pos hgr] at heq
    rcases hg : hmap_grow t with _ | t1
    · rw [hg] at heq
      exact absurd heq (by simp)
    · rw [hg] at heq
      simp only [Option.some_bind] at heq
      have hg' := hmap_grow_spec t t1 hlen holen hg
      have hi := hmap_insert_go_spec _ _ _ _ _ _ heq (by omega) (by omega)
        (hmap_calc_hash_live t1 _)
      refine ⟨⟨by omega, by omega, by omega, by omega, by omega, ?_, by omega⟩,
        by omega, ?_, by omega, by omega⟩
      · rw [hi.2.2.2.1, hg'.2.2.2.1, hi.2.2.1, hg'.1, hi.2.2.2.2.1, hg'.2.2.2.2.1,
          hi.2.2.2.2.2.1, hg'.2.2.2.2.2.1]
      · rw [hi.2.2.2.2.2.2.1, hg'.2.2.2.2.2.2.1]
  · rw [if_neg hgr] at heq
    simp only [Option.some_bind] at heq
    have hi := hmap_insert_go_spec _ _ _ _ _ _ heq hlen holen (hmap_calc_hash_live t _)
    have hts : t.threshold < t.size := by
      rw [hth]
      exact threshold_lt_size t.size t.lfNum t.lfDen hs hlf
    refine ⟨⟨by omega, by omega, by omega, by omega, by omega, ?_, by omega⟩,
      by omega, hi.2.2.2.2.2.2.1, by omega, by omega⟩
    rw [hi.2.2.2.1, hth, hi.2.2.1, hi.2.2.2.2.1, hi.2.2.2.2.2.1]

theorem hmap_remove_go_spec :
    ∀ (fuel : Nat) (t : Hmap) (object : HObj) (hash distance : Nat) (t' : Hmap),
      hmap_remove_go fuel t object hash distance = some t' →
      t.hashes.length = t.size → hmap_live hash = true →
      t'.count = t.count - 1 ∧ hmap_live_count t' + 1 = hmap_live_count t ∧
      t'.size = t.size ∧ t'.threshold = t.threshold ∧ t'.lfNum = t.lfNum ∧
      t'.lfDen = t.lfDen ∧ t'.hashFn = t.hashFn ∧
      t'.hashes.length = t.hashes.length ∧ t'.objects.length = t.objects.length := by
  intro fuel
  induction fuel with
  | zero =>
    intro t o hash d t' heq _ _
    simp [hmap_remove_go] at heq
  | succ fuel ih =>
    intro t o hash d t' heq hlen hlive
    simp only [hmap_remove_go] at heq
    by_cases hd : d < t.size
    · rw [if_pos hd] at heq
      have hs : 0 < t.size := by omega
      have hidx : hmap_index t hash d < t.size := hmap_index_lt t hash d hs
      split_ifs at heq with hc
      · have hbold : hmap_live (lget t.hashes (hmap_index t hash d) 0) = true := by
          rw [hc.1]
          exact hlive
        have hbnew : hmap_live (hash ||| HMAP_HASH_DELETED_BIT) = false := by
          simp only [hmap_live, decide_eq_false_iff_not]
          rintro ⟨_, hz⟩
          rw [nat_or_and_self] at hz
          exact absurd hz (by decide)
        have hcount := countP_set_key hmap_live t.hashes (hmap_index t hash d)
          (hash ||| HMAP_HASH_DELETED_BIT) 0 (by rw [hlen]; exact hidx)
        rw [hbold, hbnew] at hcount
        simp at hcount
        cases heq
        refine ⟨rfl, ?_, rfl, rfl, rfl, rfl, rfl, by simp, by simp⟩
        show (t.hashes.set (hmap_index t hash d) (hash ||| HMAP_HASH_DELETED_BIT)).countP
          hmap_live + 1 = t.hashes.countP hmap_live
        omega
      · exact ih _ _ _ _ _ heq hlen hlive
    · rw [if_neg hd] at heq
      exact absurd heq (by simp)

theorem hmap_remove_spec (t : Hmap) (object : HObj) (t' : Hmap) (hinv : HmapInv t)
    (heq : hmap_remove t object = some t') :
    HmapInv t' ∧ t'.count = t.count - 1 ∧ t'.hashFn = t.hashFn ∧
    t'.lfNum = t.lfNum ∧ t'.lfDen = t.lfDen := by
  obtain ⟨hlen, holen, hs, hcl, hcs, hth, hlf⟩ := hinv
  unfold hmap_remove at heq
  have hr := hmap_remove_go_spec _ _ _ _ _ _ heq hlen (hmap_calc_hash_live t _)
  refine ⟨⟨by omega, by omega, by omega, by omega, by omega, ?_, by omega⟩,
    by omega, hr.2.2.2.2.2.2.1, by omega, by omega⟩
  rw [hr.2.2.2.1, hth, hr.2.2.1, hr.2.2.2.2.1, hr.2.2.2.2.2.1]

theorem hmap_create_inv (hashFn : Nat → Nat) (lfNum lfDen : Nat)
    (hgl : goodLF lfNum lfDen) : HmapInv (hmap_create hashFn lfNum lfDen) := by
  have hlen : (hmap_create hashFn lfNum lfDen).hashes.length =
      (hmap_create hashFn lfNum lfDen).size := by
    show (List.replicate HMAP_INITIAL_SIZE HMAP_HASH_FREE).length = HMAP_INITIAL_SIZE
    simp
  have holen : (hmap_create hashFn lfNum lfDen).objects.length =
      (hmap_create hashFn lfNum lfDen).size := by
    show (List.replicate HMAP_INITIAL_SIZE (default : HObj)).length = HMAP_INITIAL_SIZE
    simp
  have hcnt : (hmap_create hashFn lfNum lfDen).count =
      hmap_live_count (hmap_create hashFn lfNum lfDen) := by
    show 0 = (List.replicate HMAP_INITIAL_SIZE HMAP_HASH_FREE).countP hmap_live
    rw [countP_replicate_false hmap_live HMAP_HASH_FREE (by decide)]
  have hsz : 0 < (hmap_create hashFn lfNum lfDen).size := by
    show 0 < HMAP_INITIAL_SIZE
    decide
  have hcs : (hmap_create hashFn lfNum lfDen).count <
      (hmap_create hashFn lfNum lfDen).size := by
    show 0 < HMAP_INITIAL_SIZE
    decide
  have hlf : (hmap_create hashFn lfNum lfDen).lfNum <
      (hmap_create hashFn lfNum lfDen).lfDen := by
    show (if lfNum = 0 then 4 else lfNum) < (if lfNum = 0 then 5 else lfDen)
    rcases hgl with h0 | hpl
    · rw [if_pos h0, if_pos h0]
      decide
    · have hne : lfNum ≠ 0 := by omega
      rw [if_neg hne, if_neg hne]
      exact hpl.2
  exact ⟨hlen, holen, hsz, hcnt, hcs, rfl, hlf⟩

theorem hmap_reachable_inv (hashFn : Nat → Nat) (lfNum lfDen : Nat)
    (hgl : goodLF lfNum lfDen) :
    ∀ t, HmapReachable hashFn lfNum lfDen t → HmapInv t := by
  intro t hr
  induction hr with
  | create => exact hmap_create_inv hashFn lfNum lfDen hgl
  | insert object hr heq ih => exact (hmap_insert_spec _ _ _ ih heq).1
  | remove object hr heq ih => exact (hmap_remove_spec _ _ _ ih heq).1

/-! ## Claim C6 -/

/-- Claim C6: for every hmap created with a `max_load_factor` strictly
between 0 and 1 (or 0, selecting the default 0.8) and reachable by inserts
and removes, every successful `hmap_insert` leaves `count < size`, and
whenever `hmap_grow` completes, `size` exactly doubles while `count` (the
number of live entries) is unchanged across the grow. -/
theorem hmap_load_invariant (hashFn : Nat → Nat) (lfNum lfDen : Nat) (t : Hmap)
    (hgl : goodLF lfNum lfDen) (hr : HmapReachable hashFn lfNum lfDen t) :
    (∀ (object : HObj) (t' : Hmap), hmap_insert t object = some t' → t'.count < t'.size) ∧
    (∀ t' : Hmap, hmap_grow t = some t' → t'.size = 2 * t.size ∧ t'.count = t.count) := by
  have hinv := hmap_reachable_inv hashFn lfNum lfDen hgl t hr
  constructor
  · intro o t' heq
    exact (hmap_insert_spec t o t' hinv heq).1.2.2.2.2.1
  · intro t' heq
    have h := hmap_grow_spec t t' hinv.1 hinv.2.1 heq
    refine ⟨by omega, ?_⟩
    rw [h.2.1, ← hinv.2.2.2.1]

/-- Witness for C6: a concrete reachable state (fresh table, then one
insert) satisfies `count < size`. -/
theorem hmap_load_invariant_witness : hmapW1.count < hmapW1.size := by
  have h := (hmap_load_invariant trivialHash 0 0 hmapW0 (Or.inl rfl) HmapReachable.create).1
  exact h ⟨1, 1⟩ hmapW1 rfl

/-! ## Flow table invariant (claim C7) -/

theorem lget_set_self (l : List α) (i : Nat) (v d : α) (h : i < l.length) :
    lget (l.set i v) i d = v := by
  simp [lget, List.getElem?_set_self (by simpa using h)]

theorem lget_set_ne (l : List α) (i j : Nat) (v d : α) (h : i ≠ j) :
    lget (l.set i v) j d = lget l j d := by
  simp [lget, List.getElem?_set_ne h]

theorem lget_replicate_self (n : Nat) (x : α) (i : Nat) :
    lget (List.replicate n x) i x = x := by
  simp only [lget, List.getElem?_replicate]
  split <;> rfl

theorem ft_ent_set_self (ft : FtInstance) (i : Nat) (e : FtEntry)
    (h : i < ft.entries.length) :
    ft_ent { ft with entries := ft.entries.set i e } i = e := by
  show lget (ft.entries.set i e) i default = e
  exact lget_set_self ft.entries i e default h

theorem ft_ent_set_ne (ft : FtInstance) (i j : Nat) (e : FtEntry) (h : i ≠ j) :
    ft_ent { ft with entries := ft.entries.set i e } j = ft_ent ft j := by
  show lget (ft.entries.set i e) j default = lget ft.entries j default
  exact lget_set_ne ft.entries i j e default h

/-- `ft_entry_setup` never produces a deleting state when the slot started
out `FREE` (every path leaves the state `FREE` or sets it to `NEW`). -/
theorem ft_entry_setup_not_deleted (entry : FtEntry) (id : Nat) (flow_add : FlowAdd)
    (h : entry.state = FtFlowState.FREE) :
    FT_FLOW_STATE_IS_DELETED (ft_entry_setup entry id flow_add).2.state = false := by
  unfold ft_entry_setup ft_flow_set_effects
  cases hdup : flow_add.dupOk
  · simp [FT_FLOW_STATE_IS_DELETED, h]
  · cases hmat : flow_add.matchOk
    · simp [FT_FLOW_STATE_IS_DELETED]
    · cases heff : flow_add.effectsOk
      · simp [FT_FLOW_STATE_IS_DELETED]
      · simp [FT_FLOW_STATE_IS_DELETED]

theorem ft_deleted_count_set (ft : FtInstance) (i : Nat) (e : FtEntry)
    (h : i < ft.entries.length) :
    ft_deleted_count { ft with entries := ft.entries.set i e } +
        (if FT_FLOW_STATE_IS_DELETED (ft_ent ft i).state then 1 else 0) =
      ft_deleted_count ft + (if FT_FLOW_STATE_IS_DELETED e.state then 1 else 0) := by
  show (ft.entries.set i e).countP (fun e => FT_FLOW_STATE_IS_DELETED e.state) + _ =
    ft.entries.countP (fun e => FT_FLOW_STATE_IS_DELETED e.state) + _
  exact countP_set_key (fun e => FT_FLOW_STATE_IS_DELETED e.state) ft.entries i e default h

theorem countP_set_incr (p : α → Bool) (l : List α) (i : Nat) (v d : α)
    (h : i < l.length) (hold : p (lget l i d) = false) (hnew : p v = true) :
    (l.set i v).countP p = l.countP p + 1 := by
  have hk := countP_set_key p l i v d h
  rw [hold, hnew] at hk
  simpa using hk

theorem countP_set_decr (p : α → Bool) (l : List α) (i : Nat) (v d : α)
    (h : i < l.length) (hold : p (lget l i d) = true) (hnew : p v = false) :
    (l.set i v).countP p + 1 = l.countP p := by
  have hk := countP_set_key p l i v d h
  rw [hold, hnew] at hk
  simpa using hk

theorem countP_set_same (p : α → Bool) (l : List α) (i : Nat) (v d : α)
    (h : i < l.length) (heq : p (lget l i d) = p v) :
    (l.set i v).countP p = l.countP p := by
  have hk := countP_set_key p l i v d h
  rw [heq] at hk
  omega

theorem ft_create_inv (max_entries : Nat) : FtInv (ft_hash_create max_entries) := by
  refine ⟨by simp [ft_hash_create], by simp [ft_hash_create, List.nodup_range],
    by simp [ft_hash_create], ?_, by simp [ft_hash_create], by simp [ft_hash_create],
    ?_, ?_⟩
  · intro i _
    show (lget (List.replicate max_entries (default : FtEntry)) i default).state =
      FtFlowState.FREE
    rw [lget_replicate_self]
    rfl
  · intro i hi
    simp only [ft_hash_create] at hi
    simpa using List.mem_range.1 hi
  · show (0 : Int) = ((List.replicate max_entries (default : FtEntry)).countP
      (fun e => FT_FLOW_STATE_IS_DELETED e.state) : Int)
    rw [countP_replicate_false (fun (e : FtEntry) => FT_FLOW_STATE_IS_DELETED e.state)
      default (by decide)]
    rfl

theorem ft_mark_deleted_inv (ft : FtInstance) (i reason : Nat) (hinv : FtInv ft)
    (hall : i ∈ ft.all_list) : FtInv (ft_flow_mark_deleted ft i reason) := by
  obtain ⟨hlen, hfnd, hand, hfree, hdisj, hab, hfb, hpend⟩ := hinv
  unfold ft_flow_mark_deleted
  by_cases hdel : FT_FLOW_STATE_IS_DELETED (ft_ent ft i).state
  · rw [if_pos hdel]
    exact ⟨hlen, hfnd, hand, hfree, hdisj, hab, hfb, hpend⟩
  · rw [if_neg hdel]
    have hibound : i < ft.entries.length := by rw [hlen]; exact hab i hall
    have hold : FT_FLOW_STATE_IS_DELETED (ft_ent ft i).state = false := by
      simpa using hdel
    have hcnt := countP_set_incr (fun (e : FtEntry) => FT_FLOW_STATE_IS_DELETED e.state)
      ft.entries i
      { ft_ent ft i with state := FtFlowState.DELETE_MARKED, removed_reason := reason }
      default hibound hold rfl
    have hpend' : ft.status.pending_deletes =
        (ft.entries.countP (fun e => FT_FLOW_STATE_IS_DELETED e.state) : Int) := hpend
    refine ⟨by simpa using hlen, hfnd, hand, ?_, hdisj, hab, hfb, ?_⟩
    · intro j hj
      have hne : i ≠ j := by
        intro hij
        exact absurd hj (hij ▸ hdisj i hall)
      show (lget (ft.entries.set i _) j default).state = FtFlowState.FREE
      rw [lget_set_ne ft.entries i j _ default hne]
      exact hfree j hj
    · show ft.status.pending_deletes + 1 =
        ((ft.entries.set i _).countP (fun e => FT_FLOW_STATE_IS_DELETED e.state) : Int)
      rw [hpend', hcnt]
      push_cast
      omega

theorem nodup_append_singleton (l : List Nat) (i : Nat) (h1 : l.Nodup) (h2 : i ∉ l) :
    (l ++ [i]).Nodup := by
  rw [List.nodup_append]
  refine ⟨h1, List.nodup_singleton i, ?_⟩
  intro a ha hai
  rw [List.mem_singleton] at hai
  exact h2 (hai ▸ ha)

theorem ft_delete_max_eq (ft : FtInstance) (i : Nat)
    (hid : (ft_ent ft i).id ≠ INDIGO_FLOW_ID_INVALID) :
    (ft_hash_flow_delete ft i).2.max_entries = ft.max_entries := by
  unfold ft_hash_flow_delete
  rw [if_neg hid]
  rfl

theorem ft_delete_entries_eq (ft : FtInstance) (i : Nat)
    (hid : (ft_ent ft i).id ≠ INDIGO_FLOW_ID_INVALID) :
    (ft_hash_flow_delete ft i).2.entries = ft.entries.set i
      (ft_cleared (ft_ent ft i)) := by
  unfold ft_hash_flow_delete
  rw [if_neg hid]
  rfl

theorem ft_delete_free_list_eq (ft : FtInstance) (i : Nat)
    (hid : (ft_ent ft i).id ≠ INDIGO_FLOW_ID_INVALID) :
    (ft_hash_flow_delete ft i).2.free_list = ft.free_list ++ [i] := by
  unfold ft_hash_flow_delete
  rw [if_neg hid]
  rfl

theorem ft_delete_all_list_eq (ft : FtInstance) (i : Nat)
    (hid : (ft_ent ft i).id ≠ INDIGO_FLOW_ID_INVALID) :
    (ft_hash_flow_delete ft i).2.all_list = ft.all_list.erase i := by
  unfold ft_hash_flow_delete
  rw [if_neg hid]
  rfl

theorem ft_delete_pending_eq (ft : FtInstance) (i : Nat)
    (hid : (ft_ent ft i).id ≠ INDIGO_FLOW_ID_INVALID) :
    (ft_hash_flow_delete ft i).2.status.pending_deletes =
      if FT_FLOW_STATE_IS_DELETED (ft_ent ft i).state
      then ft.status.pending_deletes - 1 else ft.status.pending_deletes := by
  unfold ft_hash_flow_delete
  rw [if_neg hid]
  show ((if FT_FLOW_STATE_IS_DELETED (ft_ent ft i).state
        then ({ ft.status with pending_deletes := ft.status.pending_deletes - 1 } : FtStatus)
        else ft.status)).pending_deletes = _
  rw [apply_ite FtStatus.pending_deletes]

theorem ft_delete_inv (ft : FtInstance) (i : Nat) (hinv : FtInv ft)
    (hall : i ∈ ft.all_list) : FtInv (ft_hash_flow_delete ft i).2 := by
  obtain ⟨hlen, hfnd, hand, hfree, hdisj, hab, hfb, hpend⟩ := hinv
  by_cases hid : (ft_ent ft i).id = INDIGO_FLOW_ID_INVALID
  · unfold ft_hash_flow_delete
    rw [if_pos hid]
    exact ⟨hlen, hfnd, hand, hfree, hdisj, hab, hfb, hpend⟩
  · have hibound : i < ft.entries.length := by rw [hlen]; exact hab i hall
    have hnotfree : i ∉ ft.free_list := hdisj i hall
    have hmax := ft_delete_max_eq ft i hid
    have hent := ft_delete_entries_eq ft i hid
    have hfl := ft_delete_free_list_eq ft i hid
    have hal := ft_delete_all_list_eq ft i hid
    have hpd := ft_delete_pending_eq ft i hid
    have hpend' : ft.status.pending_deletes =
        (ft.entries.countP (fun e => FT_FLOW_STATE_IS_DELETED e.state) : Int) := hpend
    refine ⟨?_, ?_, ?_, ?_, ?_, ?_, ?_, ?_⟩
    · rw [hent, hmax]
      simpa using hlen
    · rw [hfl]
      exact nodup_append_singleton _ _ hfnd hnotfree
    · rw [hal]
      exact hand.erase i
    · intro j hj
      rw [hfl] at hj
      simp only [ft_ent, hent]
      rcases List.mem_append.1 hj with hjf | hji
      · have hne : i ≠ j := fun hij => hnotfree (hij ▸ hjf)
        rw [lget_set_ne ft.entries i j _ default hne]
        exact hfree j hjf
      · rw [List.mem_singleton] at hji
        subst hji
        rw [lget_set_self ft.entries j _ default hibound]
        rfl
    · intro j hj
      rw [hal] at hj
      rw [hfl]
      rw [hand.mem_erase_iff] at hj
      intro hjmem
      rcases List.mem_append.1 hjmem with hjf | hji
      · exact hdisj j hj.2 hjf
      · rw [List.mem_singleton] at hji
        exact hj.1 hji
    · intro j hj
      rw [hal] at hj
      rw [hmax]
      exact hab j (List.mem_of_mem_erase hj)
    · intro j hj
      rw [hfl] at hj
      rw [hmax]
      rcases List.mem_append.1 hj with hjf | hji
      · exact hfb j hjf
      · rw [List.mem_singleton] at hji
        exact hji ▸ hab i hall
    · rw [hpd]
      show _ = (ft_deleted_count (ft_hash_flow_delete ft i).2 : Int)
      have hcount : ft_deleted_count (ft_hash_flow_delete ft i).2 =
          (ft.entries.set i
            (ft_cleared (ft_ent ft i))).countP
            (fun e => FT_FLOW_STATE_IS_DELETED e.state) := by
        unfold ft_deleted_count
        rw [hent]
      rw [hcount]
      by_cases hdel : FT_FLOW_STATE_IS_DELETED (ft_ent ft i).state
      · rw [if_pos hdel]
        have hcnt := countP_set_decr (fun (e : FtEntry) => FT_FLOW_STATE_IS_DELETED e.state)
          ft.entries i
          (ft_cleared (ft_ent ft i))
          default hibound (by simpa using hdel) rfl
        rw [hpend']
        omega
      · rw [if_neg hdel]
        have hcnt := countP_set_same (fun (e : FtEntry) => FT_FLOW_STATE_IS_DELETED e.state)
          ft.entries i
          (ft_cleared (ft_ent ft i))
          default hibound (by simpa using hdel)
        rw [hpend']
        omega

theorem ft_add_inv (ft : FtInstance) (id : Nat) (fa : FlowAdd) (ep : Option Nat)
    (hinv : FtInv ft) : FtInv (ft_hash_flow_add ft id fa ep).2.1 := by
  obtain ⟨hlen, hfnd, hand, hfree, hdisj, hab, hfb, hpend⟩ := hinv
  have hpend' : ft.status.pending_deletes =
      (ft.entries.countP (fun e => FT_FLOW_STATE_IS_DELETED e.state) : Int) := hpend
  unfold ft_hash_flow_add
  cases hlk : ft_id_lookup ft id with
  | some j => exact ⟨hlen, hfnd, hand, hfree, hdisj, hab, hfb, hpend⟩
  | none =>
    cases hfl : ft.free_list with
    | nil =>
      refine ⟨hlen, ?_, hand, ?_, ?_, hab, ?_, hpend⟩ <;> simp
    | cons i rest =>
      have hifree : i ∈ ft.free_list := by rw [hfl]; exact List.mem_cons_self i rest
      have hib : i < ft.max_entries := hfb i hifree
      have hibound : i < ft.entries.length := by rw [hlen]; exact hib
      have hstate : (ft_ent ft i).state = FtFlowState.FREE := hfree i hifree
      have hnodup : i ∉ rest := by
        have h := hfnd; rw [hfl] at h; exact (List.nodup_cons.1 h).1
      have hrest : rest.Nodup := by
        have h := hfnd; rw [hfl] at h; exact (List.nodup_cons.1 h).2
      have hrest_sub : ∀ j, j ∈ rest → j ∈ ft.free_list := by
        intro j hj; rw [hfl]; exact List.mem_cons_of_mem _ hj
      rcases hsu : ft_entry_setup (ft_ent ft i) id fa with ⟨err, e⟩
      have hnotdel : FT_FLOW_STATE_IS_DELETED e.state = false := by
        have h := ft_entry_setup_not_deleted (ft_ent ft i) id fa hstate
        rw [hsu] at h; exact h
      have hsu' : ft_entry_setup (ft_ent { ft with free_list := rest } i) id fa =
          (err, e) := hsu
      have hcnt := countP_set_same (fun (e : FtEntry) => FT_FLOW_STATE_IS_DELETED e.state)
        ft.entries i e default hibound
        (by show FT_FLOW_STATE_IS_DELETED (ft_ent ft i).state =
              FT_FLOW_STATE_IS_DELETED e.state
            rw [hstate, hnotdel]
            rfl)
      simp only [hsu']
      cases err
      case NONE =>
        refine ⟨?_, hrest, ?_, ?_, ?_, ?_, ?_, ?_⟩
        · show (ft.entries.set i e).length = ft.max_entries
          simpa using hlen
        · show (i :: ft.all_list).Nodup
          exact List.nodup_cons.2 ⟨fun hmem => hdisj i hmem hifree, hand⟩
        · intro j hj
          show (lget (ft.entries.set i e) j default).state = FtFlowState.FREE
          rw [lget_set_ne ft.entries i j e default (fun hij => hnodup (hij ▸ hj))]
          exact hfree j (hrest_sub j hj)
        · intro j hj
          rcases List.mem_cons.1 hj with rfl | hj'
          · exact hnodup
          · exact fun hr => hdisj j hj' (hrest_sub j hr)
        · intro j hj
          rcases List.mem_cons.1 hj with rfl | hj'
          · exact hib
          · exact hab j hj'
        · intro j hj
          exact hfb j (hrest_sub j hj)
        · show ft.status.pending_deletes =
            ((ft.entries.set i e).countP (fun e => FT_FLOW_STATE_IS_DELETED e.state) : Int)
          rw [hcnt]
          exact hpend'
      all_goals
        refine ⟨?_, hrest, hand, ?_, ?_, hab, ?_, ?_⟩
        · show (ft.entries.set i e).length = ft.max_entries
          simpa using hlen
        · intro j hj
          show (lget (ft.entries.set i e) j default).state = FtFlowState.FREE
          rw [lget_set_ne ft.entries i j e default (fun hij => hnodup (hij ▸ hj))]
          exact hfree j (hrest_sub j hj)
        · intro j hj
          exact fun hr => hdisj j hj (hrest_sub j hr)
        · intro j hj
          exact hfb j (hrest_sub j hj)
        · show ft.status.pending_deletes =
            ((ft.entries.set i e).countP (fun e => FT_FLOW_STATE_IS_DELETED e.state) : Int)
          rw [hcnt]
          exact hpend'

theorem ft_reachable_inv (ft : FtInstance) (h : FtReachable ft) : FtInv ft := by
  induction h with
  | create n hn => exact ft_create_inv n
  | add id fa ep hr ih => exact ft_add_inv _ id fa ep ih
  | mark_deleted i reason hr hall ih => exact ft_mark_deleted_inv _ i reason ih hall
  | delete i hr hall ih => exact ft_delete_inv _ i ih hall

/-- C7: in every flow-table state reachable by add, mark_deleted and delete
calls, `status.pending_deletes` equals the number of pool entries whose
state satisfies `IS_DELETED`; `mark_deleted` on an already-deleted entry
changes nothing; `mark_deleted` on a non-deleted entry increments
`pending_deletes` by one; and `delete` of a `DELETE_MARKED` entry (a live
entry, so its id is not the INVALID marker) decrements it by one. -/
theorem ft_pending_deletes_invariant :
    (∀ ft : FtInstance, FtReachable ft →
        ft.status.pending_deletes = (ft_deleted_count ft : Int)) ∧
    (∀ (ft : FtInstance) (i reason : Nat),
        FT_FLOW_STATE_IS_DELETED (ft_ent ft i).state = true →
        ft_flow_mark_deleted ft i reason = ft) ∧
    (∀ (ft : FtInstance) (i reason : Nat),
        FT_FLOW_STATE_IS_DELETED (ft_ent ft i).state = false →
        (ft_flow_mark_deleted ft i reason).status.pending_deletes =
          ft.status.pending_deletes + 1) ∧
    (∀ (ft : FtInstance) (i : Nat),
        (ft_ent ft i).state = FtFlowState.DELETE_MARKED →
        (ft_ent ft i).id ≠ INDIGO_FLOW_ID_INVALID →
        (ft_hash_flow_delete ft i).2.status.pending_deletes =
          ft.status.pending_deletes - 1) := by
  refine ⟨?_, ?_, ?_, ?_⟩
  · intro ft hr
    exact (ft_reachable_inv ft hr).2.2.2.2.2.2.2
  · intro ft i reason hdel
    unfold ft_flow_mark_deleted
    rw [if_pos hdel]
  · intro ft i reason hdel
    unfold ft_flow_mark_deleted
    rw [if_neg (by simp [hdel])]
  · intro ft i hmark hid
    rw [ft_delete_pending_eq ft i hid]
    rw [if_pos (by rw [hmark]; rfl)]

theorem ft_pending_deletes_invariant_witness :
    ftW2.status.pending_deletes = (ft_deleted_count ftW2 : Int) ∧
    ft_flow_mark_deleted ftW2 0 5 = ftW2 ∧
    ftW2.status.pending_deletes = ftW1.status.pending_deletes + 1 ∧
    (ft_hash_flow_delete ftW2 0).2.status.pending_deletes =
      ftW2.status.pending_deletes - 1 := by
  refine ⟨?_, ?_, ?_, ?_⟩
  · exact ft_pending_deletes_invariant.1 ftW2
      (FtReachable.mark_deleted 0 3
        (FtReachable.add 7 faGood none (FtReachable.create 2 (by decide)))
        (by decide))
  · exact ft_pending_deletes_invariant.2.1 ftW2 0 5 (by decide)
  · exact ft_pending_deletes_invariant.2.2.1 ftW1 0 3 (by decide)
  · exact ft_pending_deletes_invariant.2.2.2 ftW2 0 (by decide) (by decide)

/-! ## hmap same-key run layout (claim C5) -/

theorem hmap_calc_hash_congr (t t' : Hmap) (hf : t'.hashFn = t.hashFn) (k : Nat) :
    hmap_calc_hash t' k = hmap_calc_hash t k := by
  unfold hmap_calc_hash
  rw [hf]

theorem hmap_index_congr (t t' : Hmap) (hs : t'.size = t.size) (hash d : Nat) :
    hmap_index t' hash d = hmap_index t hash d := by
  unfold hmap_index
  rw [hs]

theorem hmap_index_mod (t : Hmap) (g : Nat) (hsize : t.size = 2 ^ g) (hash d : Nat) :
    hmap_index t hash d = (hash + d) % t.size := by
  unfold hmap_index
  rw [hsize, nat_and_two_pow_sub_one]

theorem hmap_index_cases (t : Hmap) (g : Nat) (hsize : t.size = 2 ^ g) (hash d : Nat)
    (hd : d < t.size) :
    hmap_index t hash d = hash % t.size + d ∨
    hmap_index t hash d + t.size = hash % t.size + d := by
  have hs : 0 < t.size := by rw [hsize]; exact Nat.pos_pow_of_pos g (by norm_num)
  have hq : hash % t.size < t.size := Nat.mod_lt _ hs
  have hm : hmap_index t hash d = (hash % t.size + d) % t.size := by
    rw [hmap_index_mod t g hsize hash d, Nat.add_mod, Nat.mod_eq_of_lt hd]
  by_cases hlt : hash % t.size + d < t.size
  · left
    rw [hm, Nat.mod_eq_of_lt hlt]
  · right
    have h2 : hash % t.size + d - t.size < t.size := by omega
    have hmod : (hash % t.size + d) % t.size = hash % t.size + d - t.size := by
      rw [Nat.mod_eq_sub_mod (by omega), Nat.mod_eq_of_lt h2]
    rw [hm, hmod]
    omega

theorem hmap_index_inj (t : Hmap) (g : Nat) (hsize : t.size = 2 ^ g) (hash d₁ d₂ : Nat)
    (h1 : d₁ < t.size) (h2 : d₂ < t.size)
    (heq : hmap_index t hash d₁ = hmap_index t hash d₂) : d₁ = d₂ := by
  have hs : 0 < t.size := by rw [hsize]; exact Nat.pos_pow_of_pos g (by norm_num)
  have hb1 : hmap_index t hash d₁ < t.size := hmap_index_lt t hash d₁ hs
  have hb2 : hmap_index t hash d₂ < t.size := hmap_index_lt t hash d₂ hs
  rcases hmap_index_cases t g hsize hash d₁ h1 with hc1 | hc1 <;>
    rcases hmap_index_cases t g hsize hash d₂ h2 with hc2 | hc2 <;> omega

theorem hmap_distance_of_index (t : Hmap) (g : Nat) (hsize : t.size = 2 ^ g)
    (hash d : Nat) (hd : d < t.size) :
    hmap_distance t (hmap_index t hash d) hash = d := by
  have hs : 0 < t.size := by rw [hsize]; exact Nat.pos_pow_of_pos g (by norm_num)
  have hq : hash % t.size < t.size := Nat.mod_lt _ hs
  have hidx0 : hmap_index t hash 0 = hash % t.size := by
    rw [hmap_index_mod t g hsize hash 0, Nat.add_zero]
  have hidxd : hmap_index t hash d = (hash % t.size + d) % t.size := by
    rw [hmap_index_mod t g hsize hash d, Nat.add_mod, Nat.mod_eq_of_lt hd]
  unfold hmap_distance
  rw [hsize, nat_and_two_pow_sub_one, ← hsize, hidx0, hidxd]
  by_cases hlt : hash % t.size + d < t.size
  · rw [Nat.mod_eq_of_lt hlt]
    have harith : hash % t.size + d + t.size - hash % t.size = d + t.size := by omega
    rw [harith, Nat.add_mod_right, Nat.mod_eq_of_lt hd]
  · have h2 : hash % t.size + d - t.size < t.size := by omega
    have hmod : (hash % t.size + d) % t.size = hash % t.size + d - t.size := by
      rw [Nat.mod_eq_sub_mod (by omega), Nat.mod_eq_of_lt h2]
    rw [hmod]
    have harith : hash % t.size + d - t.size + t.size - hash % t.size = d := by omega
    rw [harith, Nat.mod_eq_of_lt hd]

theorem hrun_lookup_hit (k : Nat) (t : Hmap) (run : List HObj) (hr : HRun k t run)
    (s : Nat) (hs : s < run.length) :
    hmap_lookup t k s = some (run.get ⟨s, hs⟩, s + 1) := by
  obtain ⟨⟨g, hg⟩, hlen, holen, hcnt, hltsz, hkeys, hcells, hfree⟩ := hr
  have hssize : s < t.size := by omega
  have hc := hcells s hs
  have hkey : (run.get ⟨s, hs⟩).key = k := hkeys _ (run.get_mem _ _)
  have hstep : hmap_lookup_step t k (hmap_calc_hash t k) s =
      HLookupStep.found (run.get ⟨s, hs⟩) := by
    simp only [hmap_lookup_step]
    rw [hc.1, if_pos rfl, hc.2, hkey, if_pos rfl]
  unfold hmap_lookup
  obtain ⟨f, hf⟩ : ∃ f, t.size - s = f + 1 := ⟨t.size - s - 1, by omega⟩
  rw [hf]
  simp only [hmap_lookup_go]
  rw [if_pos hssize, hstep]

theorem hrun_lookup_end (k : Nat) (t : Hmap) (run : List HObj) (hr : HRun k t run) :
    hmap_lookup t k run.length = none := by
  obtain ⟨⟨g, hg⟩, hlen, holen, hcnt, hltsz, hkeys, hcells, hfree⟩ := hr
  have hidxlt : hmap_index t (hmap_calc_hash t k) run.length < t.size :=
    hmap_index_lt _ _ _ (by omega)
  have hfreecell : lget t.hashes (hmap_index t (hmap_calc_hash t k) run.length) 0 =
      HMAP_HASH_FREE := by
    apply hfree _ hidxlt
    intro j hj heq
    have := hmap_index_inj t g hg (hmap_calc_hash t k) run.length j hltsz (by omega) heq
    omega
  have hstep : hmap_lookup_step t k (hmap_calc_hash t k) run.length = HLookupStep.brk := by
    simp only [hmap_lookup_step]
    rw [hfreecell]
    have hlive := hmap_calc_hash_live t k
    have hneq : HMAP_HASH_FREE ≠ hmap_calc_hash t k := by
      simp only [hmap_live, decide_eq_true_eq] at hlive
      exact fun h => hlive.1 h.symm
    rw [if_neg hneq, if_pos (Or.inl rfl)]
  unfold hmap_lookup
  rcases hfuel : t.size - run.length with _ | f
  · exact absurd hfuel (by omega)
  · simp only [hmap_lookup_go]
    rw [if_pos (by omega : run.length < t.size), hstep]

theorem hrun_stream (k : Nat) (t : Hmap) (run : List HObj) (hr : HRun k t run) :
    ∀ m s, s + m = run.length → lookupStream t k (m + 1) s = run.drop s := by
  intro m
  induction m with
  | zero =>
    intro s hsum
    obtain rfl : s = run.length := by omega
    simp [lookupStream, hrun_lookup_end k t run hr]
  | succ m ih =>
    intro s hsum
    have hs : s < run.length := by omega
    have hhit := hrun_lookup_hit k t run hr s hs
    show (match hmap_lookup t k s with
          | none => []
          | some (object, state') => object :: lookupStream t k (m + 1) state') =
      run.drop s
    rw [hhit]
    show run.get ⟨s, hs⟩ :: lookupStream t k (m + 1) (s + 1) = run.drop s
    rw [ih (s + 1) (by omega)]
    exact (List.drop_eq_getElem_cons hs).symm

theorem hrun_insert_go (k : Nat) (t : Hmap) (run : List HObj) (o : HObj)
    (hr : HRun k t run) :
    ∀ (m fuel d : Nat), d + m = run.length → m < fuel →
    hmap_insert_go fuel t o (hmap_calc_hash t k) d =
      some { t with
        hashes := t.hashes.set (hmap_index t (hmap_calc_hash t k) run.length)
          (hmap_calc_hash t k),
        objects := t.objects.set (hmap_index t (hmap_calc_hash t k) run.length) o,
        count := t.count + 1 } := by
  obtain ⟨⟨g, hg⟩, hlen, holen, hcnt, hltsz, hkeys, hcells, hfree⟩ := hr
  intro m
  induction m with
  | zero =>
    intro fuel d hsum hfuel
    obtain rfl : d = run.length := by omega
    obtain ⟨f, rfl⟩ : ∃ f, fuel = f + 1 := ⟨fuel - 1, by omega⟩
    have hidxlt : hmap_index t (hmap_calc_hash t k) run.length < t.size :=
      hmap_index_lt _ _ _ (by omega)
    have hfreecell : lget t.hashes (hmap_index t (hmap_calc_hash t k) run.length) 0 =
        HMAP_HASH_FREE := by
      apply hfree _ hidxlt
      intro j hj heq
      have := hmap_index_inj t g hg (hmap_calc_hash t k) run.length j hltsz (by omega) heq
      omega
    simp only [hmap_insert_go]
    rw [if_pos (show run.length < t.size by omega), if_pos (Or.inl hfreecell)]
  | succ m ih =>
    intro fuel d hsum hfuel
    have hd : d < run.length := by omega
    have hdsz : d < t.size := by omega
    obtain ⟨f, rfl⟩ : ∃ f, fuel = f + 1 := ⟨fuel - 1, by omega⟩
    have hc := hcells d hd
    have hlive := hmap_calc_hash_live t k
    have hne : hmap_calc_hash t k ≠ HMAP_HASH_FREE := by
      simp only [hmap_live, decide_eq_true_eq] at hlive
      exact hlive.1
    have hdist : hmap_distance t (hmap_index t (hmap_calc_hash t k) d)
        (hmap_calc_hash t k) = d := hmap_distance_of_index t g hg _ d hdsz
    simp only [hmap_insert_go]
    rw [if_pos hdsz, hc.1, hdist]
    have hcond1 : ¬ (hmap_calc_hash t k = HMAP_HASH_FREE ∨
        (hmap_calc_hash t k &&& HMAP_HASH_DELETED_BIT ≠ 0 ∧ d < d)) := by
      rintro (h1 | ⟨h2, h3⟩)
      · exact hne h1
      · omega
    rw [if_neg hcond1, if_neg (lt_irrefl d)]
    exact ih f (d + 1) (by omega) (by omega)

theorem hrun_place (k : Nat) (t : Hmap) (run : List HObj) (o : HObj) (hr : HRun k t run)
    (hok : o.key = k) (hsz : run.length + 1 < t.size) :
    HRun k { t with
      hashes := t.hashes.set (hmap_index t (hmap_calc_hash t k) run.length)
        (hmap_calc_hash t k),
      objects := t.objects.set (hmap_index t (hmap_calc_hash t k) run.length) o,
      count := t.count + 1 } (run ++ [o]) := by
  obtain ⟨⟨g, hg⟩, hlen, holen, hcnt, hltsz, hkeys, hcells, hfree⟩ := hr
  have hidxlt : hmap_index t (hmap_calc_hash t k) run.length < t.size :=
    hmap_index_lt _ _ _ (by omega)
  refine ⟨⟨g, hg⟩, ?_, ?_, ?_, ?_, ?_, ?_, ?_⟩
  · show (t.hashes.set _ _).length = t.size
    simpa using hlen
  · show (t.objects.set _ _).length = t.size
    simpa using holen
  · show t.count + 1 = (run ++ [o]).length
    rw [List.length_append, List.length_singleton, hcnt]
  · show (run ++ [o]).length < t.size
    rw [List.length_append, List.length_singleton]
    omega
  · intro o' ho'
    rcases List.mem_append.1 ho' with h | h
    · exact hkeys o' h
    · rw [List.mem_singleton] at h
      exact h ▸ hok
  · intro j hj
    rw [List.length_append, List.length_singleton] at hj
    by_cases hjl : j < run.length
    · have hne : hmap_index t (hmap_calc_hash t k) run.length ≠
          hmap_index t (hmap_calc_hash t k) j := by
        intro heq
        have := hmap_index_inj t g hg (hmap_calc_hash t k) run.length j
          (by omega) (by omega) heq
        omega
      have hc := hcells j hjl
      constructor
      · show lget (t.hashes.set _ _) (hmap_index t (hmap_calc_hash t k) j) 0 =
          hmap_calc_hash t k
        rw [lget_set_ne _ _ _ _ _ hne]
        exact hc.1
      · show lget (t.objects.set _ _) (hmap_index t (hmap_calc_hash t k) j) default =
          (run ++ [o]).get ⟨j, by rw [List.length_append, List.length_singleton]; omega⟩
        rw [lget_set_ne _ _ _ _ _ hne, hc.2]
        simp only [List.get_eq_getElem]
        rw [List.getElem_append_left hjl]
    · obtain rfl : j = run.length := by omega
      constructor
      · show lget (t.hashes.set _ _) (hmap_index t (hmap_calc_hash t k) run.length) 0 =
          hmap_calc_hash t k
        rw [lget_set_self _ _ _ _ (by omega)]
      · show lget (t.objects.set _ _) (hmap_index t (hmap_calc_hash t k) run.length)
            default =
          (run ++ [o]).get ⟨run.length,
            by rw [List.length_append, List.length_singleton]; omega⟩
        rw [lget_set_self _ _ _ _ (by omega)]
        simp only [List.get_eq_getElem]
        rw [List.getElem_concat_length]
        rfl
  · intro i hi havoid
    rw [List.length_append, List.length_singleton] at havoid
    have hneL : i ≠ hmap_index t (hmap_calc_hash t k) run.length :=
      havoid run.length (by omega)
    show lget (t.hashes.set _ _) i 0 = HMAP_HASH_FREE
    rw [lget_set_ne _ _ _ _ _ (fun h => hneL h.symm)]
    exact hfree i hi (fun j hj => havoid j (by omega))

theorem grow_fold_dead : ∀ (l : List (Nat × HObj)) (acc : Hmap),
    (∀ p ∈ l, p.1 = HMAP_HASH_FREE) → l.foldlM hmap_grow_step acc = some acc := by
  intro l
  induction l with
  | nil => intro acc _; rfl
  | cons p l ih =>
    intro acc hdead
    rw [List.foldlM_cons]
    have hstep : hmap_grow_step acc p = some acc := by
      unfold hmap_grow_step
      rw [if_neg ?_]
      rintro ⟨h1, _⟩
      exact h1 (hdead p (List.mem_cons_self p l))
    rw [hstep]
    simp only [Option.bind_eq_bind, Option.some_bind]
    exact ih acc (fun q hq => hdead q (List.mem_cons_of_mem _ hq))

theorem hrun_insert_go_ex (k : Nat) (acc : Hmap) (racc : List HObj) (o : HObj)
    (hr : HRun k acc racc) (hok : o.key = k) (hsz : racc.length + 1 < acc.size) :
    ∃ t', hmap_insert_go (hmap_insert_fuel acc) acc o (hmap_calc_hash acc k) 0 =
        some t' ∧
      HRun k t' (racc ++ [o]) ∧ t'.size = acc.size ∧ t'.hashFn = acc.hashFn ∧
      t'.count = acc.count + 1 := by
  have hfuel : racc.length < hmap_insert_fuel acc := by
    have hlt : racc.length < acc.size := hr.2.2.2.2.1
    unfold hmap_insert_fuel
    omega
  refine ⟨_, hrun_insert_go k acc racc o hr racc.length (hmap_insert_fuel acc) 0
      (by omega) hfuel, ?_, rfl, rfl, rfl⟩
  exact hrun_place k acc racc o hr hok hsz

theorem grow_fold_run : ∀ (seg : List HObj) (k : Nat) (acc : Hmap) (racc : List HObj),
    HRun k acc racc → (∀ o ∈ seg, o.key = k) →
    racc.length + seg.length < acc.size →
    ∃ acc', (seg.map (fun o => (hmap_calc_hash acc k, o))).foldlM hmap_grow_step acc =
        some acc' ∧
      HRun k acc' (racc ++ seg) ∧ acc'.size = acc.size ∧ acc'.hashFn = acc.hashFn := by
  intro seg
  induction seg with
  | nil =>
    intro k acc racc hr hkeys hsz
    exact ⟨acc, rfl, by simpa using hr, rfl, rfl⟩
  | cons o seg ih =>
    intro k acc racc hr hkeys hsz
    have hlive := hmap_calc_hash_live acc k
    have hcond : hmap_calc_hash acc k ≠ HMAP_HASH_FREE ∧
        hmap_calc_hash acc k &&& HMAP_HASH_DELETED_BIT = 0 := by
      simpa [hmap_live] using hlive
    obtain ⟨t1, hgo, hr1, hsz1, hhf1, hcnt1⟩ := hrun_insert_go_ex k acc racc o hr
      (hkeys o (List.mem_cons_self o seg))
      (by simp only [List.length_cons] at hsz; omega)
    have hstep : hmap_grow_step acc (hmap_calc_hash acc k, o) = some t1 := by
      unfold hmap_grow_step
      rw [if_pos hcond]
      exact hgo
    rw [List.map_cons, List.foldlM_cons, hstep]
    simp only [Option.bind_eq_bind, Option.some_bind]
    have hcong : hmap_calc_hash acc k = hmap_calc_hash t1 k :=
      (hmap_calc_hash_congr acc t1 hhf1 k).symm
    rw [show (fun o => (hmap_calc_hash acc k, o)) = (fun o => (hmap_calc_hash t1 k, o))
        from by funext x; rw [hcong]]
    obtain ⟨acc', hfold, hr', hsz', hhf'⟩ := ih k t1 (racc ++ [o]) hr1
      (fun o' h => hkeys o' (List.mem_cons_of_mem _ h))
      (by rw [hsz1, List.length_append, List.length_singleton]
          simp only [List.length_cons] at hsz
          omega)
    refine ⟨acc', hfold, ?_, by rw [hsz', hsz1], by rw [hhf', hhf1]⟩
    rw [List.append_assoc, List.singleton_append] at hr'
    exact hr'

theorem hrun_create (hashFn : Nat → Nat) (lfNum lfDen k : Nat) :
    HRun k (hmap_create hashFn lfNum lfDen) [] := by
  refine ⟨⟨3, rfl⟩, ?_, ?_, rfl, ?_, ?_, ?_, ?_⟩
  · show (List.replicate HMAP_INITIAL_SIZE HMAP_HASH_FREE).length = HMAP_INITIAL_SIZE
    simp
  · show (List.replicate HMAP_INITIAL_SIZE (default : HObj)).length = HMAP_INITIAL_SIZE
    simp
  · show ([] : List HObj).length < HMAP_INITIAL_SIZE
    decide
  · intro o ho
    exact absurd ho (List.not_mem_nil o)
  · intro j hj
    exact absurd hj (by simp)
  · intro i hi _
    show lget (List.replicate HMAP_INITIAL_SIZE HMAP_HASH_FREE) i 0 = HMAP_HASH_FREE
    exact lget_replicate_self _ _ _

theorem hrun_grow (k : Nat) (t : Hmap) (run : List HObj) (hr : HRun k t run) :
    ∃ t' run', hmap_grow t = some t' ∧ HRun k t' run' ∧ run'.Perm run ∧
      t'.size = t.size * 2 ∧ t'.hashFn = t.hashFn := by
  obtain ⟨⟨g, hg⟩, hlen, holen, hcnt, hltsz, hkeys, hcells, hfree⟩ := hr
  have hs : 0 < t.size := by
    rw [hg]; exact Nat.pos_pow_of_pos g (by norm_num)
  obtain ⟨h0, hh0def⟩ : ∃ x, hmap_calc_hash t k % t.size = x := ⟨_, rfl⟩
  have hh0 : h0 < t.size := hh0def ▸ Nat.mod_lt _ hs
  have hpos : ∀ j, j < run.length →
      hmap_index t (hmap_calc_hash t k) j =
        if h0 + j < t.size then h0 + j else h0 + j - t.size := by
    intro j hj
    have hidxlt := hmap_index_lt t (hmap_calc_hash t k) j hs
    rcases hmap_index_cases t g hg (hmap_calc_hash t k) j (by omega) with hc | hc <;>
      rw [hh0def] at hc <;> split_ifs with hw <;> omega
  have hzip : t.hashes.zip t.objects =
      (List.range t.size).map (fun i => (lget t.hashes i 0, lget t.objects i default)) := by
    refine List.ext_getElem ?_ ?_
    · rw [List.length_zip, hlen, holen, List.length_map, List.length_range]
      simp
    · intro n h1 h2
      have hn : n < t.size := by
        rw [List.length_map, List.length_range] at h2
        exact h2
      rw [List.getElem_zip, List.getElem_map, List.getElem_range]
      unfold lget
      rw [List.getElem?_eq_getElem (show n < t.hashes.length by omega),
          List.getElem?_eq_getElem (show n < t.objects.length by omega)]
      rfl
  have hr0 : HRun k (hmap_grow_init t) [] := by
    refine ⟨⟨g + 1, ?_⟩, ?_, ?_, rfl, ?_, ?_, ?_, ?_⟩
    · show t.size * 2 = 2 ^ (g + 1)
      rw [hg]; ring
    · show (List.replicate (t.size * 2) HMAP_HASH_FREE).length = t.size * 2
      simp
    · show (List.replicate (t.size * 2) (default : HObj)).length = t.size * 2
      simp
    · show ([] : List HObj).length < t.size * 2
      simp only [List.length_nil]
      omega
    · intro o ho
      exact absurd ho (List.not_mem_nil o)
    · intro j hj
      exact absurd hj (by simp)
    · intro i hi _
      show lget (List.replicate (t.size * 2) HMAP_HASH_FREE) i 0 = HMAP_HASH_FREE
      exact lget_replicate_self _ _ _
  have hcalc0 : hmap_calc_hash (hmap_grow_init t) k = hmap_calc_hash t k :=
    hmap_calc_hash_congr t _ rfl k
  by_cases hwrap : h0 + run.length ≤ t.size
  · -- the run does not wrap around the end of the old array
    have hfe : ((fun x => h0 + x) ∘ (fun x => run.length + x)) =
        (fun x => h0 + run.length + x) := by
      funext x
      show h0 + (run.length + x) = h0 + run.length + x
      omega
    have hdecomp : List.range t.size =
        List.range h0 ++
        (((List.range run.length).map (fun x => h0 + x)) ++
         ((List.range (t.size - h0 - run.length)).map (fun x => h0 + run.length + x))) := by
      have e1 : t.size = h0 + (run.length + (t.size - h0 - run.length)) := by omega
      conv_lhs => rw [e1]
      rw [List.range_add, List.range_add, List.map_append, List.map_map, hfe]
    have hdead1 : ∀ p ∈ (List.range h0).map
        (fun i => (lget t.hashes i 0, lget t.objects i default)), p.1 = HMAP_HASH_FREE := by
      intro p hp
      rw [List.mem_map] at hp
      obtain ⟨i, hi, rfl⟩ := hp
      rw [List.mem_range] at hi
      show lget t.hashes i 0 = HMAP_HASH_FREE
      apply hfree i (by omega)
      intro j hj heq
      rw [hpos j hj, if_pos (by omega)] at heq
      omega
    have hdead2 : ∀ p ∈ ((List.range (t.size - h0 - run.length)).map
          (fun x => h0 + run.length + x)).map
        (fun i => (lget t.hashes i 0, lget t.objects i default)), p.1 = HMAP_HASH_FREE := by
      intro p hp
      rw [List.map_map, List.mem_map] at hp
      obtain ⟨x, hx, rfl⟩ := hp
      rw [List.mem_range] at hx
      show lget t.hashes (h0 + run.length + x) 0 = HMAP_HASH_FREE
      apply hfree _ (by omega)
      intro j hj heq
      rw [hpos j hj, if_pos (by omega)] at heq
      omega
    have hchunkR : ((List.range run.length).map (fun x => h0 + x)).map
          (fun i => (lget t.hashes i 0, lget t.objects i default)) =
        run.map (fun o => (hmap_calc_hash t k, o)) := by
      rw [List.map_map]
      refine List.ext_getElem (by simp) ?_
      intro n h1 h2
      have hn : n < run.length := by simpa using h2
      simp only [List.getElem_map, List.getElem_range, Function.comp_apply]
      have hc := hcells n hn
      rw [hpos n hn, if_pos (by omega)] at hc
      rw [hc.1, hc.2]
      rfl
    obtain ⟨acc1, hfold1, hr1, hsz1, hhf1⟩ := grow_fold_run run k (hmap_grow_init t) []
      hr0 hkeys
      (by show ([] : List HObj).length + run.length < t.size * 2
          simp only [List.length_nil]
          omega)
    rw [hcalc0] at hfold1
    have hgrow_eq : hmap_grow t = some acc1 := by
      unfold hmap_grow
      rw [hzip, hdecomp, List.map_append, List.map_append, List.foldlM_append,
        grow_fold_dead _ _ hdead1]
      simp only [Option.bind_eq_bind, Option.some_bind]
      rw [List.foldlM_append, hchunkR, hfold1]
      simp only [Option.bind_eq_bind, Option.some_bind]
      exact grow_fold_dead _ acc1 hdead2
    refine ⟨acc1, run, hgrow_eq, by simpa using hr1, List.Perm.refl run, ?_, ?_⟩
    · rw [hsz1]
      rfl
    · rw [hhf1]
      rfl
  · -- the run wraps: the scan collects its tail first (a rotation)
    have hwpos : t.size < h0 + run.length := by omega
    have hwlt : h0 + run.length - t.size < h0 := by omega
    have hfe2 : ((fun x => (h0 + run.length - t.size) + x) ∘
          (fun x => (h0 - (h0 + run.length - t.size)) + x)) = (fun x => h0 + x) := by
      funext x
      show (h0 + run.length - t.size) + ((h0 - (h0 + run.length - t.size)) + x) = h0 + x
      omega
    have hdecomp : List.range t.size =
        List.range (h0 + run.length - t.size) ++
        (((List.range (h0 - (h0 + run.length - t.size))).map
            (fun x => (h0 + run.length - t.size) + x)) ++
         ((List.range (t.size - h0)).map (fun x => h0 + x))) := by
      have e1 : t.size = (h0 + run.length - t.size) +
          ((h0 - (h0 + run.length - t.size)) + (t.size - h0)) := by omega
      conv_lhs => rw [e1]
      rw [List.range_add, List.range_add, List.map_append, List.map_map, hfe2]
    have hchunk1 : (List.range (h0 + run.length - t.size)).map
          (fun i => (lget t.hashes i 0, lget t.objects i default)) =
        (run.drop (t.size - h0)).map (fun o => (hmap_calc_hash t k, o)) := by
      refine List.ext_getElem (by simp [List.length_drop]; omega) ?_
      intro n h1 h2
      have hn : n < h0 + run.length - t.size := by simpa using h1
      simp only [List.getElem_map, List.getElem_range]
      have hj : t.size - h0 + n < run.length := by omega
      have hc := hcells (t.size - h0 + n) hj
      rw [hpos _ hj, if_neg (by omega)] at hc
      have hidx : h0 + (t.size - h0 + n) - t.size = n := by omega
      rw [hidx] at hc
      rw [List.getElem_drop, hc.1, hc.2]
      rfl
    have hdead2 : ∀ p ∈ ((List.range (h0 - (h0 + run.length - t.size))).map
          (fun x => (h0 + run.length - t.size) + x)).map
        (fun i => (lget t.hashes i 0, lget t.objects i default)), p.1 = HMAP_HASH_FREE := by
      intro p hp
      rw [List.map_map, List.mem_map] at hp
      obtain ⟨x, hx, rfl⟩ := hp
      rw [List.mem_range] at hx
      show lget t.hashes ((h0 + run.length - t.size) + x) 0 = HMAP_HASH_FREE
      apply hfree _ (by omega)
      intro j hj heq
      rw [hpos j hj] at heq
      split_ifs at heq <;> omega
    have hchunk3 : ((List.range (t.size - h0)).map (fun x => h0 + x)).map
          (fun i => (lget t.hashes i 0, lget t.objects i default)) =
        (run.take (t.size - h0)).map (fun o => (hmap_calc_hash t k, o)) := by
      rw [List.map_map]
      refine List.ext_getElem (by simp [List.length_take]; omega) ?_
      intro n h1 h2
      have hn : n < t.size - h0 := by simpa using h1
      simp only [List.getElem_map, List.getElem_range, Function.comp_apply]
      have hj : n < run.length := by omega
      have hc := hcells n hj
      rw [hpos n hj, if_pos (by omega)] at hc
      rw [List.getElem_take, hc.1, hc.2]
      rfl
    obtain ⟨acc1, hfold1, hr1, hsz1, hhf1⟩ := grow_fold_run (run.drop (t.size - h0)) k
      (hmap_grow_init t) [] hr0
      (fun o ho => hkeys o (List.mem_of_mem_drop ho))
      (by show ([] : List HObj).length + (run.drop (t.size - h0)).length < t.size * 2
          simp only [List.length_nil, List.length_drop]
          omega)
    rw [hcalc0] at hfold1
    have hcalc1 : hmap_calc_hash acc1 k = hmap_calc_hash t k := by
      rw [hmap_calc_hash_congr _ acc1 hhf1 k, hcalc0]
    obtain ⟨acc2, hfold2, hr2, hsz2, hhf2⟩ := grow_fold_run (run.take (t.size - h0)) k
      acc1 (run.drop (t.size - h0))
      (by simpa using hr1)
      (fun o ho => hkeys o (List.mem_of_mem_take ho))
      (by rw [hsz1]
          show (run.drop (t.size - h0)).length + (run.take (t.size - h0)).length <
            (hmap_grow_init t).size
          simp only [List.length_drop, List.length_take]
          show _ < t.size * 2
          omega)
    rw [hcalc1] at hfold2
    have hgrow_eq : hmap_grow t = some acc2 := by
      unfold hmap_grow
      rw [hzip, hdecomp, List.map_append, List.map_append, List.foldlM_append,
        hchunk1, hfold1]
      simp only [Option.bind_eq_bind, Option.some_bind]
      rw [List.foldlM_append, grow_fold_dead _ _ hdead2]
      simp only [Option.bind_eq_bind, Option.some_bind]
      rw [hchunk3]
      exact hfold2
    refine ⟨acc2, run.drop (t.size - h0) ++ run.take (t.size - h0), hgrow_eq, hr2, ?_, ?_, ?_⟩
    · exact List.perm_append_comm.trans
        (by rw [List.take_append_drop] : (run.take (t.size - h0) ++ run.drop (t.size - h0)).Perm run)
    · rw [hsz2, hsz1]
      rfl
    · rw [hhf2, hhf1]
      rfl

theorem hrun_insert (k : Nat) (t : Hmap) (run : List HObj) (o : HObj)
    (hr : HRun k t run) (hinv : HmapInv t) (hok : o.key = k) :
    ∃ t' run', hmap_insert t o = some t' ∧ HRun k t' run' ∧ HmapInv t' ∧
      run'.Perm (run ++ [o]) := by
  by_cases hgr : t.threshold ≤ t.count
  · obtain ⟨t1, run1, hgrow, hr1, hperm1, hsz1, hhf1⟩ := hrun_grow k t run hr
    have hplen : run1.length = run.length := hperm1.length_eq
    have hs : 0 < t.size := hinv.2.2.1
    have hltsz : run.length < t.size := hr.2.2.2.2.1
    obtain ⟨t2, hgo, hr2, hsz2, hhf2, hcnt2⟩ := hrun_insert_go_ex k t1 run1 o hr1 hok
      (by rw [hplen, hsz1]; omega)
    have hins : hmap_insert t o = some t2 := by
      unfold hmap_insert
      rw [if_pos hgr, hgrow]
      simp only [Option.some_bind]
      rw [hok]
      exact hgo
    exact ⟨t2, run1 ++ [o], hins, hr2, (hmap_insert_spec t o t2 hinv hins).1,
      List.Perm.append_right [o] hperm1⟩
  · have hth : t.threshold < t.size := by
      obtain ⟨_, _, hs, _, _, hthr, hlf⟩ := hinv
      rw [hthr]
      exact threshold_lt_size t.size t.lfNum t.lfDen hs hlf
    have hcnteq : t.count = run.length := hr.2.2.2.1
    have hszbound : run.length + 1 < t.size := by omega
    obtain ⟨t2, hgo, hr2, hsz2, hhf2, hcnt2⟩ := hrun_insert_go_ex k t run o hr hok hszbound
    have hins : hmap_insert t o = some t2 := by
      unfold hmap_insert
      rw [if_neg hgr]
      simp only [Option.some_bind]
      rw [hok]
      exact hgo
    exact ⟨t2, run ++ [o], hins, hr2, (hmap_insert_spec t o t2 hinv hins).1,
      List.Perm.refl _⟩

theorem hrun_fold_insert : ∀ (os : List HObj) (k : Nat) (t : Hmap) (run : List HObj),
    HRun k t run → HmapInv t → (∀ o ∈ os, o.key = k) →
    ∃ t' run', os.foldlM (fun acc o => hmap_insert acc o) t = some t' ∧
      HRun k t' run' ∧ HmapInv t' ∧ run'.Perm (run ++ os) := by
  intro os
  induction os with
  | nil =>
    intro k t run hr hinv _
    exact ⟨t, run, rfl, hr, hinv, by simp⟩
  | cons o os ih =>
    intro k t run hr hinv hkeys
    obtain ⟨t1, run1, hins, hr1, hinv1, hperm1⟩ := hrun_insert k t run o hr hinv
      (hkeys o (List.mem_cons_self o os))
    rw [List.foldlM_cons, hins]
    simp only [Option.bind_eq_bind, Option.some_bind]
    obtain ⟨t2, run2, hfold, hr2, hinv2, hperm2⟩ := ih k t1 run1 hr1 hinv1
      (fun o' h => hkeys o' (List.mem_cons_of_mem _ h))
    refine ⟨t2, run2, hfold, hr2, hinv2, ?_⟩
    have heq : (run ++ [o]) ++ os = run ++ (o :: os) := by
      rw [List.append_assoc, List.singleton_append]
    exact hperm2.trans (heq ▸ List.Perm.append_right os hperm1)

/-- Claim C5: inserting any number of objects that all share the key `k` into
a fresh hmap (and performing no other modification) yields a table on which
successive `hmap_lookup` calls for `k` with a state cursor initialized to 0
return each of those objects exactly once — the stream of non-null results
is a permutation of the inserted objects — and the following call (the
`(n+1)`-th) returns null, so the stream collected with `n + 1` calls already
contains all `n` objects. -/
theorem hmap_multimap_enumeration (hashFn : Nat → Nat) (lfNum lfDen k : Nat)
    (os : List HObj) (hgl : goodLF lfNum lfDen) (hkeys : ∀ o ∈ os, o.key = k) :
    ∃ t : Hmap,
      os.foldlM (fun acc o => hmap_insert acc o) (hmap_create hashFn lfNum lfDen) =
        some t ∧
      (lookupStream t k (os.length + 1) 0).Perm os := by
  obtain ⟨t, run, hfold, hr, hinv, hperm⟩ := hrun_fold_insert os k
    (hmap_create hashFn lfNum lfDen) [] (hrun_create hashFn lfNum lfDen k)
    (hmap_create_inv hashFn lfNum lfDen hgl) hkeys
  rw [List.nil_append] at hperm
  refine ⟨t, hfold, ?_⟩
  have hlen : run.length = os.length := hperm.length_eq
  rw [← hlen, hrun_stream k t run hr run.length 0 (by omega)]
  simpa using hperm

/-- Witness for C5 at concrete inputs: two objects with key 1 inserted into a
fresh default-load-factor table with the trivial hash are enumerated by the
lookup stream. -/
theorem hmap_multimap_enumeration_witness :
    goodLF 0 0 ∧ (∀ o ∈ [(⟨5, 1⟩ : HObj), ⟨6, 1⟩], o.key = 1) ∧
    ∃ t : Hmap,
      [(⟨5, 1⟩ : HObj), ⟨6, 1⟩].foldlM (fun acc o => hmap_insert acc o)
        (hmap_create trivialHash 0 0) = some t ∧
      (lookupStream t 1 ([(⟨5, 1⟩ : HObj), ⟨6, 1⟩].length + 1) 0).Perm
        [(⟨5, 1⟩ : HObj), ⟨6, 1⟩] :=
  ⟨Or.inl rfl, by decide,
    hmap_multimap_enumeration trivialHash 0 0 1 [⟨5, 1⟩, ⟨6, 1⟩] (Or.inl rfl) (by decide)⟩
